import Mathlib

/-!
Shallow embedding of the agentconfig sync/state/drift engine
(src/sync.ts, src/status.ts, src/state.ts, src/filesystem.ts).

The filesystem is modelled as a finite tree: an absolute path is the list
of its segments, and a directory node carries its entries as an
association list of (name, node).  Symbolic links store their literal
link text (itself an absolute path, since the engine only ever creates
links whose text is the mapping's absolute source path).  Metadata the
claims never consult (file sizes, mtimes, permissions) is not tracked;
`size`/`mtimeMs` in persisted records are modelled as 0.  Symlink chains
are dereferenced one level during copies; the engine never creates
chained links.  Mapping resolution (config expansion, `~`/`${VAR}`
placeholder strings) is out of scope here: the run takes the resolved
(agent, source, target) list directly, matching sync.ts from the point
where `resolveMappings` has produced `resolvedMappings`.

Process-level effects are modelled explicitly in a `World`: the tree,
the persisted state snapshot (owned by state.ts), a scripted stdin for
the interactive conflict prompt, the TTY flag, the platform's symlink
capability (what `canCreateSymlink` probes), and the run's ISO clock.
-/

namespace AgentConfig

/-- An absolute path, as its list of segments. -/
abbrev Path := List String

mutual

/-- A filesystem node: regular file (with its byte content), symbolic
link (with its literal link text), or directory (with named entries). -/
inductive FNode where
  | file (content : String)
  | symlink (linkText : Path)
  | dir (entries : EntryList)
deriving DecidableEq, Repr

/-- Directory entries: an association list of (name, node). -/
inductive EntryList where
  | nil
  | cons (name : String) (node : FNode) (rest : EntryList)
deriving DecidableEq, Repr

end

/-- Association lookup on directory entries. -/
def lookupA : EntryList → String → Option FNode
  | .nil, _ => none
  | .cons y n rest, x => if y = x then some n else lookupA rest x

/-- Association update: replace in place if the name is present,
otherwise append (how a directory gains a new entry). -/
def setA : EntryList → String → FNode → EntryList
  | .nil, x, v => .cons x v .nil
  | .cons y n rest, x, v =>
    if y = x then .cons y v rest else .cons y n (setA rest x v)

/-- Association removal of a name (all occurrences, so that under the
first-match `lookupA` semantics an entry list with shadowed duplicate
names -- which a real directory cannot have -- still behaves like the
single visible entry). -/
def removeA : EntryList → String → EntryList
  | .nil, _ => .nil
  | .cons y n rest, x => if y = x then removeA rest x else .cons y n (removeA rest x)

/-- `lstat`-style lookup of the node at a path; intermediate path
components must be directories (symlinks are not followed mid-path,
which the engine never relies on). -/
def lookupE : EntryList → Path → Option FNode
  | _, [] => none
  | es, [x] => lookupA es x
  | es, x :: rest =>
    match lookupA es x with
    | some (.dir es') => lookupE es' rest
    | _ => none

/-- Write a node at a path.  Every strict prefix of the path must
already be a directory (the engine always ensures parent directories
first); otherwise the write fails, as the corresponding syscall would. -/
def setE : EntryList → Path → FNode → Option EntryList
  | _, [], _ => none
  | es, [x], v => some (setA es x v)
  | es, x :: rest, v =>
    match lookupA es x with
    | some (.dir es') => (setE es' rest v).map (fun es'' => setA es x (.dir es''))
    | _ => none

/-- Remove the node at a path together with its whole subtree (a
directory entry owns its children in the tree model); removing an
absent path leaves the tree unchanged.  Used for `fs.unlink`, `fs.rmdir`
(both only ever called on leaf / empty nodes) and `fs.rm -rf`. -/
def removeE : EntryList → Path → EntryList
  | es, [] => es
  | es, [x] => removeA es x
  | es, x :: rest =>
    match lookupA es x with
    | some (.dir es') => setA es x (.dir (removeE es' rest))
    | _ => es

/-- `fs.mkdir(recursive)`: create any missing directories along the
path; fails (ENOTDIR/EEXIST) if an existing non-directory blocks it. -/
def ensureDirE : EntryList → Path → Option EntryList
  | es, [] => some es
  | es, x :: rest =>
    match lookupA es x with
    | some (.dir es') => (ensureDirE es' rest).map (fun es'' => setA es x (.dir es''))
    | some _ => none
    | none => (ensureDirE EntryList.nil rest).map (fun es'' => setA es x (.dir es''))

/-- `p` is a prefix of (or equal to) `q`: `q` lies at or under `p`. -/
def isUnder (q p : Path) : Bool := decide (q.take p.length = p)

/-- Render a path the way the TypeScript strings do (for messages). -/
def pathStr (p : Path) : String := "/" ++ String.intercalate "/" p

/-- `fileExists` (filesystem.ts): an `lstat` probe, so dangling symlinks
count as existing; the root itself always exists. -/
def fileExists (es : EntryList) (p : Path) : Bool :=
  p.isEmpty || (lookupE es p).isSome

/-- `readLinkTarget` (filesystem.ts): the literal link text, `none` when
the path is absent (ENOENT is swallowed); only ever called on paths
already known to be symlinks or absent. -/
def readLinkTarget (es : EntryList) (p : Path) : Option Path :=
  match lookupE es p with
  | some (.symlink t) => some t
  | _ => none

mutual

/-- Modelled from the spec: `hashPath` (the Filesystem Probe's content
hash, spec 4.2) is imported from src/filesystem by sync.ts and
status.ts but its definition is not among the provided sources.  Per the
spec it hashes a file's bytes and a directory by recursively combining
each entry's name, kind and content; the cryptographic digest is
modelled as an injective canonical encoding of the node (symlinks are
their own leaf kind, never followed). -/
def hashNode : FNode → String
  | .file c => "file:" ++ c
  | .symlink t => "symlink:" ++ pathStr t
  | .dir es => "dir:(" ++ hashEntries es ++ ")"

/-- Modelled from the spec: entry-by-entry part of `hashNode`. -/
def hashEntries : EntryList → String
  | .nil => ""
  | .cons x n rest => x ++ "=" ++ hashNode n ++ ";" ++ hashEntries rest

end

/-! ## Data model (src/types.ts) -/

inductive SyncMode where
  | auto | link | copy
deriving DecidableEq, Repr

inductive ConflictPolicy where
  | overwrite | backup | skip | cancel
deriving DecidableEq, Repr

/-- The exit-code classes carried by `AgentConfigError` (src/errors.ts)
that the modelled engine raises. -/
inductive ExitCode where
  | validation | conflict | filesystem
deriving DecidableEq, Repr

/-- A thrown JavaScript error: either an `AgentConfigError` (message and
exit-code class) or any other error (carrying only a description). -/
inductive Err where
  | agent (msg : String) (code : ExitCode)
  | raw (msg : String)
deriving DecidableEq, Repr

/-- A `ResolvedMapping`. -/
structure Mapping where
  agent : String
  source : Path
  target : Path
  mode : SyncMode
deriving DecidableEq, Repr

/-- A persisted `SyncRecord`; `size`/`mtimeMs` are 0 because the tree
model carries no such metadata. -/
structure SyncRecord where
  path : Path
  source : Path
  agent : String
  mode : SyncMode
  size : Nat
  mtimeMs : Nat
  hash : Option String
  linkTarget : Option Path
deriving DecidableEq, Repr

inductive ScopeMode where
  | global | project
deriving DecidableEq, Repr

/-- The persisted `SyncState`; `files` is keyed by absolute target path,
in JavaScript-object insertion order. -/
structure SyncState where
  version : Nat
  updatedAt : String
  mode : ScopeMode
  projectRoot : Option Path
  files : List (Path × SyncRecord)
deriving DecidableEq, Repr

/-- Key lookup in a path-keyed record map. -/
def getKey {V : Type} : List (Path × V) → Path → Option V
  | [], _ => none
  | (q, v) :: rest, p => if q = p then some v else getKey rest p

/-- JavaScript object assignment `files[key] = v`: replace in place if
the key is present, otherwise append. -/
def setKey {V : Type} : List (Path × V) → Path → V → List (Path × V)
  | [], p, v => [(p, v)]
  | (q, u) :: rest, p, v =>
    if q = p then (q, v) :: rest else (q, u) :: setKey rest p v

/-- The process-level state a run can read or mutate. -/
structure World where
  fs : EntryList
  stateFile : Option SyncState
  stdin : List String
  isTTY : Bool
  symlinkOk : Bool
  now : String
deriving DecidableEq, Repr

/-- `readState` (src/state.ts): load the snapshot, `none` when the file
does not exist (the invalid-JSON failure mode is outside the model,
which stores the parsed value directly). -/
def readState (w : World) : Option SyncState := w.stateFile

/-- `writeState` (src/state.ts): persist the snapshot. -/
def writeState (w : World) (s : SyncState) : World :=
  { w with stateFile := some s }

/-- Result of a filesystem-level operation that can throw: either arm
carries the tree as it stands at that moment (JavaScript exceptions do
not roll anything back). -/
inductive FsRes (α : Type) where
  | ok (a : α) (fs : EntryList)
  | err (e : Err) (fs : EntryList)
deriving DecidableEq, Repr

/-! ## Apply engine (src/sync.ts) -/

/-- What `getTargetInfo` reports about an existing target. -/
structure TargetInfo where
  isDirectory : Bool
  isSymlink : Bool
  linkTarget : Option Path
deriving DecidableEq, Repr

/-- `getTargetInfo` (sync.ts:385): `lstat` the target, reporting kind
and, for symlinks, the literal link text; `none` when absent. -/
def getTargetInfo (es : EntryList) (target : Path) : Option TargetInfo :=
  match lookupE es target with
  | none => none
  | some (.symlink t) => some ⟨false, true, some t⟩
  | some (.dir _) => some ⟨true, false, none⟩
  | some (.file _) => some ⟨false, false, none⟩

/-- `removeEmptyDirectory` (sync.ts:407): `readdir`; refuse (false) when
non-empty, else `rmdir` and report true.  Errors if the path is not a
directory (callers guard on that). -/
def removeEmptyDirectory (es : EntryList) (target : Path) :
    Except String (EntryList × Bool) :=
  match lookupE es target with
  | some (.dir .nil) => .ok (removeE es target, true)
  | some (.dir _) => .ok (es, false)
  | _ => .error ("readdir failed: " ++ pathStr target)

/-- `removeDirectory` (sync.ts:416): without permission only an empty
directory is removed; with permission `rm -rf`. -/
def removeDirectory (es : EntryList) (target : Path) (allowNonEmptyDir : Bool) :
    Except String (EntryList × Bool) :=
  if !allowNonEmptyDir then removeEmptyDirectory es target
  else .ok (removeE es target, true)

/-- `ensureTargetParent` (sync.ts:371): `mkdir -p` the parent, recording
a warning (when a warning sink was passed) if the parent did not exist. -/
def ensureTargetParent (es : EntryList) (targetParent target : Path)
    (ws : Option (List String)) : FsRes (Option (List String)) :=
  let parentExists := fileExists es targetParent
  match ensureDirE es targetParent with
  | none => .err (.raw ("mkdir failed: " ++ pathStr targetParent)) es
  | some es' =>
    if parentExists then .ok ws es'
    else
      .ok (ws.map (fun l =>
        l ++ ["Created target parent directory: " ++ pathStr targetParent ++
          " (for " ++ pathStr target ++ ")"])) es'

mutual

/-- The write phase of `copyFileOrDir` (filesystem.ts:58) as a transform
of the source subtree (read once from the root tree `root`): files copy
their bytes, directories recurse entry-by-entry into whatever already
sits at the destination, and a symlink is dereferenced (as `fs.copyFile`
does), failing when dangling or pointing at a non-file. -/
def copyInto (root : EntryList) : Option FNode → FNode → Except String FNode
  | old, .file c =>
    match old with
    | some (.dir _) => .error "EISDIR: copyFile onto directory"
    | _ => .ok (.file c)
  | old, .symlink t =>
    match lookupE root t with
    | some (.file c) =>
      match old with
      | some (.dir _) => .error "EISDIR: copyFile onto directory"
      | _ => .ok (.file c)
    | _ => .error ("copyFile failed: " ++ pathStr t)
  | old, .dir es =>
    match old with
    | some (.file _) | some (.symlink _) => .error "ENOTDIR: mkdir over non-directory"
    | some (.dir oldEs) => (copyIntoEntries root oldEs es).map .dir
    | none => (copyIntoEntries root .nil es).map .dir

/-- Entry-by-entry step of `copyInto`. -/
def copyIntoEntries (root : EntryList) : EntryList → EntryList → Except String EntryList
  | oldEs, .nil => .ok oldEs
  | oldEs, .cons x n rest => do
    let n' ← copyInto root (lookupA oldEs x) n
    copyIntoEntries root (setA oldEs x n') rest

end

/-- `copyFileOrDir` (filesystem.ts:58): recursively copy a file or
directory from `src` to `dst` (reads against the tree as it was when the
copy started; the engine never copies a tree into itself). -/
def copyFileOrDir (es : EntryList) (src dst : Path) : FsRes Unit :=
  match lookupE es src with
  | none => .err (.raw ("lstat failed: " ++ pathStr src)) es
  | some n =>
    match copyInto es (lookupE es dst) n with
    | .error msg => .err (.raw msg) es
    | .ok n' =>
      match ensureDirE es dst.dropLast with
      | none => .err (.raw ("mkdir failed: " ++ pathStr dst.dropLast)) es
      | some es₁ =>
        match setE es₁ dst n' with
        | none => .err (.raw ("write failed: " ++ pathStr dst)) es
        | some es₂ => .ok () es₂

/-- `fs.symlink(source, target, type)`: fails when the platform cannot
create symlinks, when something already sits at the target (EEXIST), or
when the parent chain is broken. -/
def symlinkOp (symlinkOk : Bool) (es : EntryList) (src dst : Path) : Except String EntryList :=
  if !symlinkOk then .error "EPERM: symlinks not supported"
  else if (lookupE es dst).isSome then .error ("EEXIST: " ++ pathStr dst)
  else
    match setE es dst (.symlink src) with
    | none => .error ("ENOENT: " ++ pathStr dst)
    | some es' => .ok es'

/-- The tail of `applyCopyMapping` shared by its branches: ensure the
target's parent (no warning sink on this path) and copy. -/
def finishCopy (es : EntryList) (m : Mapping) : FsRes Unit :=
  match ensureTargetParent es m.target.dropLast m.target none with
  | .err e es' => .err e es'
  | .ok _ es₁ => copyFileOrDir es₁ m.source m.target

/-- `applyCopyMapping` (sync.ts:329): replace whatever sits at the target
with a copy of the source; a directory at the target is removed first,
refusing (Filesystem error) when non-empty without permission. -/
def applyCopyMapping (es₀ : EntryList) (m : Mapping) (allowNonEmptyDir : Bool) :
    FsRes Unit :=
  match lookupE es₀ m.source with
  | none => .err (.raw ("lstat failed: " ++ pathStr m.source)) es₀
  | some srcNode =>
    let existing := getTargetInfo es₀ m.target
    match srcNode with
    | .dir _ =>
      let es₁ :=
        match existing with
        | some info => if info.isDirectory = false then removeE es₀ m.target else es₀
        | none => es₀
      match existing with
      | some info =>
        if info.isDirectory then
          match removeDirectory es₁ m.target allowNonEmptyDir with
          | .error e => .err (.raw e) es₁
          | .ok (es₂, removed) =>
            if removed then finishCopy es₂ m
            else
              .err (.agent ("Refusing to replace non-empty directory: " ++
                pathStr m.target) .filesystem) es₂
        else finishCopy es₁ m
      | none => finishCopy es₁ m
    | _ =>
      match existing with
      | some info =>
        if info.isDirectory then
          match removeDirectory es₀ m.target allowNonEmptyDir with
          | .error e => .err (.raw e) es₀
          | .ok (es₂, removed) =>
            if removed then finishCopy es₂ m
            else
              .err (.agent ("Refusing to replace non-empty directory: " ++
                pathStr m.target) .filesystem) es₂
        else finishCopy (removeE es₀ m.target) m
      | none => finishCopy es₀ m

/-- The `try` block of `applyMapping`'s link path (sync.ts:296-317):
fast-path when an existing symlink already points at the source, else
clear the target (refusing on a non-empty directory without permission)
and create the symlink. -/
def tryLink (symlinkOk : Bool) (es₀ : EntryList) (m : Mapping) (allowNonEmptyDir : Bool) :
    FsRes Unit :=
  match lookupE es₀ m.source with
  | none => .err (.raw ("lstat failed: " ++ pathStr m.source)) es₀
  | some _ =>
    let doLink : EntryList → FsRes Unit := fun es =>
      match symlinkOp symlinkOk es m.source m.target with
      | .error msg => .err (.raw msg) es
      | .ok es' => .ok () es'
    match getTargetInfo es₀ m.target with
    | some info =>
      if info.isSymlink then
        if info.linkTarget = some m.source then .ok () es₀
        else doLink (removeE es₀ m.target)
      else if info.isDirectory then
        match removeDirectory es₀ m.target allowNonEmptyDir with
        | .error e => .err (.raw e) es₀
        | .ok (es₁, removed) =>
          if removed then doLink es₁
          else
            .err (.agent ("Refusing to replace non-empty directory: " ++
              pathStr m.target) .filesystem) es₁
      else doLink (removeE es₀ m.target)
    | none => doLink es₀

/-- `applyMapping` (sync.ts:282): copy mode delegates to
`applyCopyMapping`; link mode ensures the parent, runs the link attempt,
rethrows `AgentConfigError`s and on any other failure records a warning
and falls back to copy semantics for this one mapping.  Returns the
warning list (the run's mutable array). -/
def applyMapping (symlinkOk : Bool) (es₀ : EntryList) (m : Mapping)
    (warnings₀ : List String) (allowNonEmptyDir : Bool) : FsRes (List String) :=
  if m.mode = .copy then
    match applyCopyMapping es₀ m allowNonEmptyDir with
    | .ok _ es' => .ok warnings₀ es'
    | .err e es' => .err e es'
  else
    match ensureTargetParent es₀ m.target.dropLast m.target (some warnings₀) with
    | .err e es₁ => .err e es₁
    | .ok ws₁ es₁ =>
      let warnings₁ := ws₁.getD warnings₀
      match tryLink symlinkOk es₁ m allowNonEmptyDir with
      | .ok _ es₂ => .ok warnings₁ es₂
      | .err (.agent msg code) es₂ => .err (.agent msg code) es₂
      | .err (.raw msg) es₂ =>
        let warnings₂ := warnings₁ ++
          ["Symlink failed for " ++ pathStr m.target ++ " (" ++ msg ++
            "); falling back to copy"]
        match applyCopyMapping es₂ m allowNonEmptyDir with
        | .ok _ es₃ => .ok warnings₂ es₃
        | .err e es₃ => .err e es₃

/-! ## Conflict engine (src/sync.ts) -/

structure ConflictState where
  policy : Option ConflictPolicy
  canAsk : Bool
deriving DecidableEq, Repr

structure ConflictDecision where
  action : ConflictPolicy
  state : ConflictState
deriving DecidableEq, Repr

/-- `promptConflictAction` (sync.ts:164): read a numbered choice and an
apply-to-all answer from stdin (scripted here; reading past the script's
end yields empty lines, as a closed stdin would). -/
def promptConflictAction (stdin : List String) :
    (ConflictPolicy × Bool) × List String :=
  let choice := stdin.headD ""
  let rest := stdin.tail
  let applyToAllAnswer := rest.headD ""
  let rest₂ := rest.tail
  let applyToAll : Bool :=
    decide (applyToAllAnswer.trim.toLower = "y") ||
      decide (applyToAllAnswer.trim.toLower = "yes")
  let action : ConflictPolicy :=
    match choice.trim.toNat? with
    | some 1 => .overwrite
    | some 2 => .backup
    | some 4 => .cancel
    | _ => .skip
  ((action, applyToAll), rest₂)

/-- `resolveConflictPolicy` (sync.ts:147): an already-fixed policy wins;
a process that cannot ask defaults to skip and fixes skip for the rest
of the run; otherwise prompt, fixing the chosen action when the operator
applies it to all. -/
def resolveConflictPolicy (state : ConflictState) (isTTY : Bool)
    (stdin : List String) : ConflictDecision × List String :=
  match state.policy with
  | some p => (⟨p, state⟩, stdin)
  | none =>
    if !state.canAsk || !isTTY then
      (⟨.skip, { state with policy := some .skip }⟩, stdin)
    else
      let ((action, applyToAll), stdin') := promptConflictAction stdin
      let resolved := if applyToAll then some action else none
      (⟨action, ⟨resolved, !applyToAll⟩⟩, stdin')

/-- The timestamp for a backup directory:
`new Date().toISOString().replace(/[:.]/g, "-")`. -/
def backupTimestamp (now : String) : String :=
  String.mk (now.data.map (fun c => if c = ':' ∨ c = '.' then '-' else c))

/-- The backup destination for a target:
`<sourceRoot>/backup/<timestamp>/<target with leading separators
stripped>` (stripping the absolute target's leading `/` is exactly
re-using its segments). -/
def backupDest (sourceRoot : Path) (now : String) (target : Path) : Path :=
  sourceRoot ++ ["backup", backupTimestamp now] ++ target

/-- `backupTarget` (sync.ts:196): ensure the backup directory and copy
the pre-existing target into it. -/
def backupTarget (es : EntryList) (target sourceRoot : Path) (now : String) :
    FsRes Unit :=
  let destination := backupDest sourceRoot now target
  match ensureDirE es destination.dropLast with
  | none => .err (.raw ("mkdir failed: " ++ pathStr destination.dropLast)) es
  | some es₁ => copyFileOrDir es₁ target destination

/-- `isManaged` (sync.ts:436): the target's absolute path is a key of
the previous snapshot's `files`. -/
def isManaged (target : Path) (state : Option SyncState) : Bool :=
  match state with
  | none => false
  | some st => (getKey st.files target).isSome

/-! ## State reconciliation (src/sync.ts buildState) -/

/-- The `SyncRecord` rebuilt for one applied mapping (the loop body of
`buildState`, sync.ts:452-466): re-probe the target's kind, store a link
target for symlinks and a content hash otherwise. -/
def buildRecord (es : EntryList) (m : Mapping) : Except Err SyncRecord :=
  match lookupE es m.target with
  | none => .error (.raw ("lstat failed: " ++ pathStr m.target))
  | some (.symlink t) =>
    .ok ⟨m.target, m.source, m.agent, .link, 0, 0, none, some t⟩
  | some n =>
    .ok ⟨m.target, m.source, m.agent, .copy, 0, 0, some (hashNode n), none⟩

/-- The fold of `buildState` over the updated mappings. -/
def buildStateFiles (es : EntryList) :
    List (Path × SyncRecord) → List Mapping → Except Err (List (Path × SyncRecord))
  | files, [] => .ok files
  | files, m :: rest => do
    let r ← buildRecord es m
    buildStateFiles es (setKey files m.target r) rest

/-- `buildState` (sync.ts:443): start from the previous snapshot's
`files`, overwrite an entry per updated mapping, stamp version and
clock. -/
def buildState (scopeMode : ScopeMode) (projectRoot : Option Path)
    (mappings : List Mapping) (previousState : Option SyncState)
    (es : EntryList) (now : String) : Except Err SyncState := do
  let files₀ := match previousState with | some st => st.files | none => []
  let files ← buildStateFiles es files₀ mappings
  .ok ⟨1, now, scopeMode, projectRoot, files⟩

/-! ## The run (src/sync.ts syncConfigs) -/

structure SyncOptions where
  sourceRoot : Path
  scopeMode : ScopeMode
  projectRoot : Option Path
  linkMode : SyncMode
  dryRun : Bool
  force : Bool
  conflictPolicy : Option ConflictPolicy
  strict : Bool
deriving DecidableEq, Repr

/-- A planned mapping before the run stamps the resolved mode on it
(the relevant output of `resolveMappings`). -/
structure PreMapping where
  agent : String
  source : Path
  target : Path
deriving DecidableEq, Repr

structure SyncResult where
  planned : List Mapping
  updated : List Mapping
  skipped : List Mapping
  warnings : List String
deriving DecidableEq, Repr

/-- `resolveSyncMode` (sync.ts:259): auto resolves, once per run, by the
platform's empirical symlink capability. -/
def resolveSyncMode (linkMode : SyncMode) (symlinkOk : Bool) : SyncMode :=
  match linkMode with
  | .auto => if symlinkOk then .link else .copy
  | lm => lm

/-- The mutable state the per-mapping loop threads. -/
structure RunSt where
  w : World
  cs : ConflictState
  warnings : List String
  updated : List Mapping
  skipped : List Mapping
deriving DecidableEq, Repr

/-- Outcome of processing one mapping, or of the whole loop: continue
with new state, or abort the run with a thrown error (the world stays
as it was at the throw; nothing is rolled back). -/
inductive RunOut where
  | cont (st : RunSt)
  | fail (e : Err) (w : World)
deriving DecidableEq, Repr

/-- The apply phase of the loop body (sync.ts:108-121): dry runs skip
it; `AgentConfigError`s rethrow, anything else becomes a Filesystem
`Failed to sync`; success records the mapping as updated. -/
def applyPhase (opts : SyncOptions) (st : RunSt) (m : Mapping) (w : World)
    (cs : ConflictState) (allowNonEmptyDir : Bool) : RunOut :=
  if opts.dryRun then .cont { st with w := w, cs := cs }
  else
    match applyMapping w.symlinkOk w.fs m st.warnings allowNonEmptyDir with
    | .err (.agent msg code) fs' => .fail (.agent msg code) { w with fs := fs' }
    | .err (.raw _) fs' =>
      .fail (.agent ("Failed to sync " ++ pathStr m.target) .filesystem) { w with fs := fs' }
    | .ok warnings' fs' =>
      .cont { st with
        w := { w with fs := fs' }
        cs := cs
        warnings := warnings'
        updated := st.updated ++ [m] }

/-- One iteration of the `for` loop of `syncConfigs` (sync.ts:69-122). -/
def syncStep (opts : SyncOptions) (existingState : Option SyncState)
    (st : RunSt) (m : Mapping) : RunOut :=
  let policyAllowsOverwrite : Bool :=
    decide (st.cs.policy = some .overwrite) || decide (st.cs.policy = some .backup)
  let managedTarget := isManaged m.target existingState
  let allowNonEmptyDir := opts.force || policyAllowsOverwrite || managedTarget
  if !fileExists st.w.fs m.source then
    if opts.strict then
      .fail (.agent ("Missing source: " ++ pathStr m.source) .validation) st.w
    else
      .cont { st with
        warnings := st.warnings ++ ["Skipping missing source: " ++ pathStr m.source],
        skipped := st.skipped ++ [m] }
  else
    if fileExists st.w.fs m.target && !opts.force && !managedTarget then
      let (decision, stdin') := resolveConflictPolicy st.cs st.w.isTTY st.w.stdin
      let w₁ := { st.w with stdin := stdin' }
      if decision.action = .cancel then
        .fail (.agent "Sync cancelled" .conflict) w₁
      else if decision.action = .skip then
        .cont { st with
          w := w₁
          cs := decision.state
          warnings := st.warnings ++ ["Skipping unmanaged target: " ++ pathStr m.target]
          skipped := st.skipped ++ [m] }
      else if decision.action = .backup then
        if opts.dryRun then applyPhase opts st m w₁ decision.state true
        else
          match backupTarget w₁.fs m.target opts.sourceRoot w₁.now with
          | .err e fs' => .fail e { w₁ with fs := fs' }
          | .ok _ fs' => applyPhase opts st m { w₁ with fs := fs' } decision.state true
      else applyPhase opts st m w₁ decision.state true
    else applyPhase opts st m st.w st.cs allowNonEmptyDir

/-- The `for` loop of `syncConfigs`, in resolution order. -/
def runLoop (opts : SyncOptions) (existingState : Option SyncState) :
    RunSt → List Mapping → RunOut
  | st, [] => .cont st
  | st, m :: rest =>
    match syncStep opts existingState st m with
    | .cont st' => runLoop opts existingState st' rest
    | .fail e w => .fail e w

/-- Result of a whole run: the returned `SyncResult` plus the world, or
the thrown error plus the world as it stood at the throw. -/
inductive WRes (α : Type) where
  | ok (a : α) (w : World)
  | err (e : Err) (w : World)
deriving DecidableEq, Repr

/-- `syncConfigs` (sync.ts:38): resolve the mode, stamp it on every
planned mapping, run the loop, and -- outside dry runs -- rebuild and
persist the merged state.  `preMappings` stands for the output of
`resolveMappings` (whose config/path-string expansion is outside this
model). -/
def syncConfigs (opts : SyncOptions) (preMappings : List PreMapping)
    (w₀ : World) : WRes SyncResult :=
  let resolvedMode := resolveSyncMode opts.linkMode w₀.symlinkOk
  let resolvedMappings :=
    preMappings.map (fun pm => Mapping.mk pm.agent pm.source pm.target resolvedMode)
  let existingState := readState w₀
  match runLoop opts existingState ⟨w₀, ⟨opts.conflictPolicy, true⟩, [], [], []⟩
      resolvedMappings with
  | .fail e w => .err e w
  | .cont st =>
    if opts.dryRun then
      .ok ⟨resolvedMappings, st.updated, st.skipped, st.warnings⟩ st.w
    else
      match buildState opts.scopeMode opts.projectRoot st.updated existingState
          st.w.fs st.w.now with
      | .error e => .err e st.w
      | .ok newState =>
        .ok ⟨resolvedMappings, st.updated, st.skipped, st.warnings⟩
          (writeState st.w newState)

/-! ## Drift detector (src/status.ts) -/

inductive Status where
  | missing | drifted | ok
deriving DecidableEq, Repr

structure StatusEntry where
  path : Path
  status : Status
  reason : Option String
deriving DecidableEq, Repr

/-- The loop body of `getStatus` (status.ts:19-61) for one record. -/
def statusOf (es : EntryList) (r : SyncRecord) : StatusEntry :=
  if !fileExists es r.path then ⟨r.path, .missing, some "target missing"⟩
  else
    let stat : Option FNode :=
      if r.mode = SyncMode.link || r.mode = SyncMode.auto then lookupE es r.path else none
    let statIsLink : Bool :=
      match stat with | some (.symlink _) => true | _ => false
    let mode : SyncMode :=
      if r.mode = SyncMode.auto then (if statIsLink then .link else .copy) else r.mode
    if mode = SyncMode.link then
      if !statIsLink then ⟨r.path, .drifted, some "link target changed"⟩
      else
        match r.linkTarget with
        | none => ⟨r.path, .drifted, some "link target changed"⟩
        | some stored =>
          if readLinkTarget es r.path ≠ some stored then
            ⟨r.path, .drifted, some "link target changed"⟩
          else ⟨r.path, .ok, none⟩
    else
      match r.hash with
      | none => ⟨r.path, .drifted, some "content changed"⟩
      | some stored =>
        if (lookupE es r.path).map hashNode ≠ some stored then
          ⟨r.path, .drifted, some "content changed"⟩
        else ⟨r.path, .ok, none⟩

/-- `getStatus` (status.ts:12): one entry per record of the snapshot. -/
def getStatus (w : World) : List StatusEntry :=
  match readState w with
  | none => []
  | some st => st.files.map (fun e => statusOf w.fs e.2)

/-! ## Claim-side definitions -/

/-- `p` is a path prefix of `q` (including `p = q`): the node at `q`
lies at or below the node at `p`. -/
def pfx (p q : Path) : Prop := q.take p.length = p

instance (p q : Path) : Decidable (pfx p q) := by unfold pfx; infer_instance

/-- Whether the node currently at `p` is a symlink. -/
def isSymlinkAt (es : EntryList) (p : Path) : Bool :=
  match lookupE es p with
  | some (.symlink _) => true
  | _ => false

/-- Whether the node currently at `p` is a regular file. -/
def isFileAt (es : EntryList) (p : Path) : Bool :=
  match lookupE es p with
  | some (.file _) => true
  | _ => false

/-- The drift classification in the words of claim C4 / spec 4.6:
missing when the target no longer exists; for link-effective records
(stored mode link, or stored mode auto with the target currently a
symlink) drifted with reason "link target changed" when the target is
not a symlink, the record has no stored linkTarget, or the current link
target differs from the stored one; for copy-effective records drifted
with reason "content changed" when the record has no stored hash or the
current content hash differs; ok otherwise. -/
def specStatus (es : EntryList) (r : SyncRecord) : StatusEntry :=
  if fileExists es r.path = false then ⟨r.path, .missing, some "target missing"⟩
  else if r.mode = SyncMode.link ∨ (r.mode = SyncMode.auto ∧ isSymlinkAt es r.path = true) then
    if isSymlinkAt es r.path = false ∨ r.linkTarget = none ∨
        readLinkTarget es r.path ≠ r.linkTarget then
      ⟨r.path, .drifted, some "link target changed"⟩
    else ⟨r.path, .ok, none⟩
  else
    if r.hash = none ∨ (lookupE es r.path).map hashNode ≠ r.hash then
      ⟨r.path, .drifted, some "content changed"⟩
    else ⟨r.path, .ok, none⟩

/-- The tree a filesystem-level result leaves behind (either arm). -/
def fsOf {α : Type} : FsRes α → EntryList
  | .ok _ fs => fs
  | .err _ fs => fs

/-- The world a loop outcome leaves behind (either arm). -/
def runOutW : RunOut → World
  | .cont st => st.w
  | .fail _ w => w

/-- Every strict prefix of `p` names an existing directory (so a node
can be written at `p`); false for the root path itself. -/
def dirChain : EntryList → Path → Bool
  | _, [] => false
  | _, [_] => true
  | es, x :: rest =>
    match lookupA es x with
    | some (.dir es₁) => dirChain es₁ rest
    | _ => false

mutual

/-- A subtree with no symlinks and no shadowed duplicate entry names:
the shape every real synced directory has, under which a recursive copy
reproduces the node exactly. -/
def plainN : FNode → Bool
  | .file _ => true
  | .symlink _ => false
  | .dir es => plainE es

/-- Entry-list side of `plainN`. -/
def plainE : EntryList → Bool
  | .nil => true
  | .cons x n rest => (lookupA rest x).isNone && plainN n && plainE rest

end

/-- Concatenation of entry lists. -/
def appendE : EntryList → EntryList → EntryList
  | .nil, ys => ys
  | .cons x n r, ys => .cons x n (appendE r ys)

/-- The names of the first entry list are all absent from the second. -/
def freshE : EntryList → EntryList → Bool
  | .nil, _ => true
  | .cons x _ r, old => (lookupA old x).isNone && freshE r old

/-- The last mapping of the list whose target is `p`, if any (the one
whose record survives the `buildState` fold). -/
def lastTargeting : List Mapping → Path → Option Mapping
  | [], _ => none
  | m :: rest, p =>
    match lastTargeting rest p with
    | some m' => some m'
    | none => if m.target = p then some m else none

/-! ## Concrete example fixtures (used by witnesses and counterexamples) -/

/-- A source root holding one file `agent.md` with content "hello". -/
def exFs : EntryList :=
  .cons "srcroot" (.dir (.cons "agent.md" (.file "hello") .nil)) .nil

/-- `exFs` plus a pre-existing unmanaged regular file at the target. -/
def exFsTgt : EntryList :=
  .cons "srcroot" (.dir (.cons "agent.md" (.file "hello") .nil))
    (.cons "home" (.dir (.cons "AGENTS.md" (.file "old") .nil)) .nil)

/-- A fresh, non-interactive, symlink-capable world over `exFs`. -/
def exWorld : World :=
  { fs := exFs, stateFile := none, stdin := [], isTTY := false,
    symlinkOk := true, now := "2026-10-11T00:00:00.000Z" }

/-- `exWorld` with the pre-existing target of `exFsTgt`. -/
def exWorldTgt : World := { exWorld with fs := exFsTgt }

/-- `exWorld` on a platform that cannot create symlinks. -/
def exWorldNoSymlink : World := { exWorld with symlinkOk := false }

/-- A forced, non-dry link-mode run rooted at `/srcroot`. -/
def exOpts : SyncOptions :=
  { sourceRoot := ["srcroot"], scopeMode := .global, projectRoot := none,
    linkMode := .link, dryRun := false, force := true, conflictPolicy := none,
    strict := false }

/-- The one planned mapping `agent.md -> /home/AGENTS.md`. -/
def exPm : PreMapping :=
  { agent := "codex", source := ["srcroot", "agent.md"],
    target := ["home", "AGENTS.md"] }

/-- A planned mapping whose source does not exist in `exFs`. -/
def exPmMissing : PreMapping :=
  { agent := "codex", source := ["srcroot", "gone.md"],
    target := ["home", "X.md"] }

/-- `exFs` after `agent.md -> /home/AGENTS.md` has been applied as a
symlink. -/
def exFsLinked : EntryList :=
  .cons "srcroot" (.dir (.cons "agent.md" (.file "hello") .nil))
    (.cons "home" (.dir (.cons "AGENTS.md" (.symlink ["srcroot", "agent.md"]) .nil))
      .nil)

/-- `exFs` after `agent.md -> /home/AGENTS.md` has been applied as a
copy (what the symlink-failure fallback produces). -/
def exFsCopied : EntryList :=
  .cons "srcroot" (.dir (.cons "agent.md" (.file "hello") .nil))
    (.cons "home" (.dir (.cons "AGENTS.md" (.file "hello") .nil)) .nil)

/-- A prior snapshot tracking one unrelated target `/keep/me`. -/
def exPrevState : SyncState :=
  ⟨1, "T0", .global, none,
    [(["keep", "me"],
      ⟨["keep", "me"], ["srcroot", "old.md"], "codex", .copy, 0, 0,
        some "file:z", none⟩)]⟩

/-- `exWorld` carrying the prior snapshot `exPrevState`. -/
def exWorldPrev : World := { exWorld with stateFile := some exPrevState }

/-- `exFs` with a pre-existing non-empty *directory* at the target. -/
def exFsDirTgt : EntryList :=
  .cons "srcroot" (.dir (.cons "agent.md" (.file "hello") .nil))
    (.cons "home"
      (.dir (.cons "AGENTS.md" (.dir (.cons "inner.txt" (.file "x") .nil)) .nil))
      .nil)

/-- `exWorld` over `exFsDirTgt`. -/
def exWorldDirTgt : World := { exWorld with fs := exFsDirTgt }

/-- `exFsTgt` after `agent.md -> /home1/A.md` has been applied in link
mode (the state of the world when a later mapping cancels the run). -/
def exFsAfterFirst : EntryList :=
  .cons "srcroot" (.dir (.cons "agent.md" (.file "hello") .nil))
    (.cons "home" (.dir (.cons "AGENTS.md" (.file "old") .nil))
      (.cons "home1" (.dir (.cons "A.md" (.symlink ["srcroot", "agent.md"]) .nil))
        .nil))

/-- The loop state after that first applied mapping, in a run whose
caller-supplied conflict policy is cancel. -/
def exStAfterFirst : RunSt :=
  ⟨{ exWorldTgt with fs := exFsAfterFirst },
    ⟨some .cancel, true⟩,
    ["Created target parent directory: /home1 (for /home1/A.md)"],
    [⟨"codex", ["srcroot", "agent.md"], ["home1", "A.md"], .link⟩], []⟩

/-- The snapshot the first linking run of `exPm` persists: one record
managing `/home/AGENTS.md` as a link. -/
def exStateLinked : SyncState :=
  ⟨1, "2026-10-11T00:00:00.000Z", .global, none,
    [(["home", "AGENTS.md"],
      ⟨["home", "AGENTS.md"], ["srcroot", "agent.md"], "codex", .link, 0, 0,
        none, some ["srcroot", "agent.md"]⟩)]⟩

/-- The world as the first linking run of `exPm` leaves it: the symlink
is on disk and the snapshot manages the target (the input of a second,
identical run). -/
def exWorldSecond : World :=
  { exWorld with fs := exFsLinked, stateFile := some exStateLinked }

/-- The snapshot the first copying run of `exPm` persists: one record
managing `/home/AGENTS.md` as a copy. -/
def exStateCopied : SyncState :=
  ⟨1, "2026-10-11T00:00:00.000Z", .global, none,
    [(["home", "AGENTS.md"],
      ⟨["home", "AGENTS.md"], ["srcroot", "agent.md"], "codex", .copy, 0, 0,
        some (hashNode (.file "hello")), none⟩)]⟩

/-- The world as the first copying run of `exPm` leaves it: the copied
file is on disk and the snapshot manages the target (the input of a
second, identical copy-mode run). -/
def exWorldSecondCopy : World :=
  { exWorld with fs := exFsCopied, stateFile := some exStateCopied }

/-! ## Path-prefix lemmas -/

@[simp] theorem pfx_nil_left (q : Path) : pfx [] q := rfl

@[simp] theorem pfx_cons_nil (x : String) (p : Path) : ¬ pfx (x :: p) [] := by
  simp [pfx]

@[simp] theorem pfx_cons_cons (x y : String) (p q : Path) :
    pfx (x :: p) (y :: q) ↔ y = x ∧ pfx p q := by
  simp [pfx, List.take_succ_cons]

theorem pfx_refl (p : Path) : pfx p p := by
  induction p with
  | nil => simp
  | cons x p ih => simp [ih]

theorem pfx_dropLast (q : Path) : pfx q.dropLast q := by
  induction q with
  | nil => simp [pfx]
  | cons x q ih =>
    cases q with
    | nil => simp [pfx]
    | cons y q' => simpa using ih

theorem pfx_trans {a b c : Path} (h₁ : pfx a b) (h₂ : pfx b c) : pfx a c := by
  induction a generalizing b c with
  | nil => simp
  | cons x a ih =>
    cases b with
    | nil => exact absurd h₁ (pfx_cons_nil _ _)
    | cons y b =>
      cases c with
      | nil => exact absurd h₂ (pfx_cons_nil _ _)
      | cons z c =>
        rw [pfx_cons_cons] at h₁ h₂ ⊢
        exact ⟨h₂.1.trans h₁.1, ih h₁.2 h₂.2⟩

theorem pfx_of_pfx_dropLast {p q : Path} (h : pfx p q.dropLast) : pfx p q :=
  pfx_trans h (pfx_dropLast q)

/-! ## Entry-list association lemmas -/

/-- Single-motive structural induction for `EntryList` (the mutual
recursor is unusable with the `induction` tactic). -/
theorem EntryList.inductionOn {motive : EntryList → Prop} (es : EntryList)
    (nil : motive .nil)
    (cons : ∀ y n rest, motive rest → motive (.cons y n rest)) : motive es :=
  match es with
  | .nil => nil
  | .cons y n rest => cons y n rest (EntryList.inductionOn rest nil cons)

@[simp] theorem lookupA_setA_self (es : EntryList) (x : String) (v : FNode) :
    lookupA (setA es x v) x = some v := by
  induction es using EntryList.inductionOn with
  | nil => simp [setA, lookupA]
  | cons y n rest ih =>
    by_cases h : y = x
    · simp [setA, lookupA, h]
    · simp [setA, lookupA, h, ih]

theorem lookupA_setA_ne (es : EntryList) {x y : String} (h : y ≠ x)
    (v : FNode) : lookupA (setA es x v) y = lookupA es y := by
  induction es using EntryList.inductionOn with
  | nil => simp [setA, lookupA, Ne.symm h]
  | cons z n rest ih =>
    by_cases hz : z = x
    · subst hz
      simp [setA, lookupA, Ne.symm h]
    · simp [setA, lookupA, hz, ih]

theorem setA_id {es : EntryList} {x : String} {v : FNode}
    (h : lookupA es x = some v) : setA es x v = es := by
  induction es using EntryList.inductionOn with
  | nil => simp [lookupA] at h
  | cons y n rest ih =>
    by_cases hy : y = x
    · subst hy
      simp [lookupA] at h
      simp [setA, h]
    · simp [lookupA, hy] at h
      simp [setA, hy, ih h]

@[simp] theorem lookupA_removeA_self (es : EntryList) (x : String) :
    lookupA (removeA es x) x = none := by
  induction es using EntryList.inductionOn with
  | nil => simp [removeA, lookupA]
  | cons y n rest ih =>
    by_cases h : y = x
    · simp [removeA, h, ih]
    · simp [removeA, lookupA, h, ih]

theorem lookupA_removeA_ne (es : EntryList) {x y : String} (h : y ≠ x) :
    lookupA (removeA es x) y = lookupA es y := by
  induction es using EntryList.inductionOn with
  | nil => simp [removeA]
  | cons z n rest ih =>
    by_cases hz : z = x
    · subst hz
      simp [removeA, lookupA, Ne.symm h, ih]
    · simp [removeA, lookupA, hz, ih]

/-! ## Path-level tree lemmas -/

@[simp] theorem lookupE_nil_path (es : EntryList) : lookupE es [] = none := rfl

theorem lookupE_setE_self {p : Path} {es es' : EntryList} {v : FNode}
    (h : setE es p v = some es') : lookupE es' p = some v := by
  induction p generalizing es es' with
  | nil => simp [setE] at h
  | cons x rest ih =>
    cases rest with
    | nil =>
      simp only [setE, Option.some.injEq] at h
      subst h
      simp [lookupE]
    | cons y rest' =>
      cases hx : lookupA es x with
      | none => simp [setE, hx] at h
      | some n =>
        cases n with
        | file c => simp [setE, hx] at h
        | symlink t => simp [setE, hx] at h
        | dir es₁ =>
          simp only [setE, hx] at h
          obtain ⟨es₁', hset, rfl⟩ := Option.map_eq_some'.mp h
          simp only [lookupE, lookupA_setA_self]
          exact ih hset

theorem lookupE_setE_frame {p : Path} {es es' : EntryList} {v : FNode}
    (h : setE es p v = some es') {q : Path} (hq₁ : ¬ pfx q p) (hq₂ : ¬ pfx p q) :
    lookupE es' q = lookupE es q := by
  induction p generalizing q es es' with
  | nil => simp [setE] at h
  | cons x rest ih =>
    cases rest with
    | nil =>
      simp only [setE, Option.some.injEq] at h
      subst h
      cases q with
      | nil => simp
      | cons z q' =>
        by_cases hz : z = x
        · subst hz
          cases q' with
          | nil => exact absurd (by simp [pfx_refl]) hq₁
          | cons u q'' => exact absurd (by simp [pfx]) hq₂
        · cases q' with
          | nil => simp [lookupE, lookupA_setA_ne _ hz]
          | cons u q'' => simp [lookupE, lookupA_setA_ne _ hz]
    | cons y rest' =>
      cases hx : lookupA es x with
      | none => simp [setE, hx] at h
      | some n =>
        cases n with
        | file c => simp [setE, hx] at h
        | symlink t => simp [setE, hx] at h
        | dir es₁ =>
          simp only [setE, hx] at h
          obtain ⟨es₁', hset, rfl⟩ := Option.map_eq_some'.mp h
          cases q with
          | nil => simp
          | cons z q' =>
            by_cases hz : z = x
            · subst hz
              cases q' with
              | nil => exact absurd (by simp) hq₁
              | cons u q'' =>
                have h₁ : ¬ pfx (u :: q'') (y :: rest') := fun hc => hq₁ (by simp [hc])
                have h₂ : ¬ pfx (y :: rest') (u :: q'') := fun hc => hq₂ (by simp [hc])
                simp only [lookupE, lookupA_setA_self, hx]
                exact ih hset h₁ h₂
            · cases q' with
              | nil => simp [lookupE, lookupA_setA_ne _ hz]
              | cons u q'' => simp [lookupE, lookupA_setA_ne _ hz]

theorem lookupE_removeE_self (es : EntryList) (p : Path) :
    lookupE (removeE es p) p = none := by
  induction p generalizing es with
  | nil => simp
  | cons x rest ih =>
    cases rest with
    | nil => simp [removeE, lookupE]
    | cons y rest' =>
      cases hx : lookupA es x with
      | none => simp [removeE, lookupE, hx]
      | some n =>
        cases n with
        | file c => simp [removeE, lookupE, hx]
        | symlink t => simp [removeE, lookupE, hx]
        | dir es₁ => simp [removeE, lookupE, hx, lookupA_setA_self, ih]

theorem lookupE_removeE_frame (es : EntryList) (p : Path) {q : Path}
    (hq₁ : ¬ pfx q p) (hq₂ : ¬ pfx p q) :
    lookupE (removeE es p) q = lookupE es q := by
  induction p generalizing q es with
  | nil => simp [removeE]
  | cons x rest ih =>
    cases rest with
    | nil =>
      simp only [removeE]
      cases q with
      | nil => simp
      | cons z q' =>
        by_cases hz : z = x
        · subst hz
          cases q' with
          | nil => exact absurd (by simp [pfx_refl]) hq₁
          | cons u q'' => exact absurd (by simp [pfx]) hq₂
        · cases q' with
          | nil => simp [lookupE, lookupA_removeA_ne _ hz]
          | cons u q'' => simp [lookupE, lookupA_removeA_ne _ hz]
    | cons y rest' =>
      cases hx : lookupA es x with
      | none => simp [removeE, hx]
      | some n =>
        cases n with
        | file c => simp [removeE, hx]
        | symlink t => simp [removeE, hx]
        | dir es₁ =>
          simp only [removeE, hx]
          cases q with
          | nil => simp
          | cons z q' =>
            by_cases hz : z = x
            · subst hz
              cases q' with
              | nil => exact absurd (by simp) hq₁
              | cons u q'' =>
                have h₁ : ¬ pfx (u :: q'') (y :: rest') := fun hc => hq₁ (by simp [hc])
                have h₂ : ¬ pfx (y :: rest') (u :: q'') := fun hc => hq₂ (by simp [hc])
                simp only [lookupE, lookupA_setA_self, hx]
                exact ih _ h₁ h₂
            · cases q' with
              | nil => simp [lookupE, lookupA_setA_ne _ hz]
              | cons u q'' => simp [lookupE, lookupA_setA_ne _ hz]

/-- A tree freshly created by `ensureDirE` from nothing holds only the
directories on its path. -/
theorem lookupE_ensureDirE_nil {p : Path} {d : EntryList}
    (h : ensureDirE .nil p = some d) {q : Path} (hq : ¬ pfx q p) :
    lookupE d q = none := by
  induction p generalizing d q with
  | nil =>
    simp only [ensureDirE, Option.some.injEq] at h
    subst h
    cases q with
    | nil => simp
    | cons z q' => cases q' <;> simp [lookupE, lookupA]
  | cons x rest ih =>
    simp only [ensureDirE, lookupA] at h
    obtain ⟨d', hd', rfl⟩ := Option.map_eq_some'.mp h
    cases q with
    | nil => simp
    | cons z q' =>
      by_cases hz : z = x
      · subst hz
        cases q' with
        | nil => exact absurd (by simp) hq
        | cons u q'' =>
          have h₁ : ¬ pfx (u :: q'') rest := fun hc => hq (by simp [hc])
          simp only [lookupE, setA, lookupA, if_pos rfl]
          exact ih hd' h₁
      · cases q' with
        | nil => simp [lookupE, setA, lookupA, Ne.symm hz]
        | cons u q'' => simp [lookupE, setA, lookupA, Ne.symm hz]

theorem lookupE_ensureDirE_frame {p : Path} {es es' : EntryList}
    (h : ensureDirE es p = some es') {q : Path} (hq : ¬ pfx q p) :
    lookupE es' q = lookupE es q := by
  induction p generalizing q es es' with
  | nil => simp only [ensureDirE, Option.some.injEq] at h; subst h; rfl
  | cons x rest ih =>
    cases hx : lookupA es x with
    | none =>
      simp only [ensureDirE, hx] at h
      obtain ⟨es₁', hset, rfl⟩ := Option.map_eq_some'.mp h
      cases q with
      | nil => simp
      | cons z q' =>
        by_cases hz : z = x
        · subst hz
          cases q' with
          | nil => exact absurd (by simp) hq
          | cons u q'' =>
            have h₁ : ¬ pfx (u :: q'') rest := fun hc => hq (by simp [hc])
            simp only [lookupE, lookupA_setA_self, hx]
            exact lookupE_ensureDirE_nil hset h₁
        · cases q' with
          | nil => simp [lookupE, lookupA_setA_ne _ hz]
          | cons u q'' => simp [lookupE, lookupA_setA_ne _ hz]
    | some n =>
      cases n with
      | file c => simp [ensureDirE, hx] at h
      | symlink t => simp [ensureDirE, hx] at h
      | dir es₁ =>
        simp only [ensureDirE, hx] at h
        obtain ⟨es₁', hset, rfl⟩ := Option.map_eq_some'.mp h
        cases q with
        | nil => simp
        | cons z q' =>
          by_cases hz : z = x
          · subst hz
            cases q' with
            | nil => exact absurd (by simp) hq
            | cons u q'' =>
              have h₁ : ¬ pfx (u :: q'') rest := fun hc => hq (by simp [hc])
              simp only [lookupE, lookupA_setA_self, hx]
              exact ih hset h₁
          · cases q' with
            | nil => simp [lookupE, lookupA_setA_ne _ hz]
            | cons u q'' => simp [lookupE, lookupA_setA_ne _ hz]

/-- `mkdir -p` below an existing node is a complete no-op: the walk goes
through existing directories only. -/
theorem ensureDirE_id {p : Path} {x : String} {es : EntryList} {n : FNode}
    (h : lookupE es (p ++ [x]) = some n) : ensureDirE es p = some es := by
  induction p generalizing es with
  | nil => rfl
  | cons y rest ih =>
    rw [List.cons_append] at h
    have hlook : ∃ es₁, lookupA es y = some (.dir es₁) ∧
        lookupE es₁ (rest ++ [x]) = some n := by
      cases rest with
      | nil =>
        simp only [List.nil_append, lookupE] at h
        cases hy : lookupA es y with
        | none => simp [hy] at h
        | some m =>
          cases m with
          | file c => simp [hy] at h
          | symlink t => simp [hy] at h
          | dir es₁ =>
            refine ⟨es₁, rfl, ?_⟩
            rw [hy] at h
            simpa using h
      | cons z rest' =>
        simp only [lookupE] at h
        cases hy : lookupA es y with
        | none => simp [hy] at h
        | some m =>
          cases m with
          | file c => simp [hy] at h
          | symlink t => simp [hy] at h
          | dir es₁ =>
            refine ⟨es₁, rfl, ?_⟩
            rw [hy] at h
            simpa using h
    obtain ⟨es₁, hy, hrest⟩ := hlook
    simp only [ensureDirE, hy, ih hrest, Option.map_some']
    rw [setA_id]
    rw [hy]

/-! ## Drift classification (claim C4) -/

theorem statusOf_eq_specStatus (es : EntryList) (r : SyncRecord) :
    statusOf es r = specStatus es r := by
  unfold statusOf specStatus isSymlinkAt readLinkTarget
  by_cases hex : fileExists es r.path
  · cases hm : r.mode with
    | copy =>
      cases hh : r.hash with
      | none => simp [hex, hm, hh]
      | some stored =>
        cases hl : lookupE es r.path with
        | none => simp [hex, hm, hh, hl]
        | some n =>
          by_cases hn : hashNode n = stored
          · simp [hex, hm, hh, hl, hn]
          · simp [hex, hm, hh, hl, hn]
    | link =>
      cases hl : lookupE es r.path with
      | none => simp [hex, hm, hl]
      | some n =>
        cases n with
        | file c => simp [hex, hm, hl]
        | dir d => simp [hex, hm, hl]
        | symlink t =>
          cases hlt : r.linkTarget with
          | none => simp [hex, hm, hl, hlt]
          | some stored =>
            by_cases ht : t = stored
            · simp [hex, hm, hl, hlt, ht]
            · simp [hex, hm, hl, hlt, ht]
    | auto =>
      cases hl : lookupE es r.path with
      | none =>
        cases hh : r.hash with
        | none => simp [hex, hm, hl, hh]
        | some stored => simp [hex, hm, hl, hh]
      | some n =>
        cases n with
        | file c =>
          cases hh : r.hash with
          | none => simp [hex, hm, hl, hh]
          | some stored =>
            by_cases hn : hashNode (FNode.file c) = stored
            · simp [hex, hm, hl, hh, hn]
            · simp [hex, hm, hl, hh, hn]
        | dir d =>
          cases hh : r.hash with
          | none => simp [hex, hm, hl, hh]
          | some stored =>
            by_cases hn : hashNode (FNode.dir d) = stored
            · simp [hex, hm, hl, hh, hn]
            · simp [hex, hm, hl, hh, hn]
        | symlink t =>
          cases hlt : r.linkTarget with
          | none => simp [hex, hm, hl, hlt]
          | some stored =>
            by_cases ht : t = stored
            · simp [hex, hm, hl, hlt, ht]
            · simp [hex, hm, hl, hlt, ht]
  · simp [hex]

/-- C4: for every SyncRecord in the persisted snapshot, `getStatus`
classifies it exactly as the spec's drift rules say: missing when the
target no longer exists; for link-effective records (stored mode link,
or stored mode auto with the target currently a symlink) drifted with
reason "link target changed" when the target is not a symlink, the
record has no stored linkTarget, or the current link target differs from
the stored one; for copy-effective records drifted with reason "content
changed" when the record has no stored hash or the current content hash
differs from the stored one; ok otherwise (`specStatus` spells out those
rules verbatim). -/
theorem C4_getStatus_classifies_records (w : World) :
    getStatus w =
      (match readState w with
       | none => []
       | some st => st.files.map (fun e => specStatus w.fs e.2)) := by
  unfold getStatus
  cases readState w with
  | none => rfl
  | some st => simp [statusOf_eq_specStatus]

/-! ## Loop invariants on the non-filesystem world components -/

theorem syncStep_world_const (opts : SyncOptions) (ex : Option SyncState)
    (st : RunSt) (m : Mapping) :
    (runOutW (syncStep opts ex st m)).stateFile = st.w.stateFile ∧
    (runOutW (syncStep opts ex st m)).isTTY = st.w.isTTY ∧
    (runOutW (syncStep opts ex st m)).symlinkOk = st.w.symlinkOk ∧
    (runOutW (syncStep opts ex st m)).now = st.w.now := by
  unfold syncStep applyPhase
  dsimp only
  repeat' split
  all_goals simp [runOutW]

theorem runLoop_world_const (opts : SyncOptions) (ex : Option SyncState)
    (ms : List Mapping) : ∀ st : RunSt,
    (runOutW (runLoop opts ex st ms)).stateFile = st.w.stateFile ∧
    (runOutW (runLoop opts ex st ms)).isTTY = st.w.isTTY ∧
    (runOutW (runLoop opts ex st ms)).symlinkOk = st.w.symlinkOk ∧
    (runOutW (runLoop opts ex st ms)).now = st.w.now := by
  induction ms with
  | nil => intro st; simp [runLoop, runOutW]
  | cons m rest ih =>
    intro st
    have hstep := syncStep_world_const opts ex st m
    unfold runLoop
    cases hout : syncStep opts ex st m with
    | cont st' =>
      rw [hout] at hstep
      simp only [runOutW] at hstep
      exact ⟨(ih st').1.trans hstep.1, (ih st').2.1.trans hstep.2.1,
        (ih st').2.2.1.trans hstep.2.2.1, (ih st').2.2.2.trans hstep.2.2.2⟩
    | fail e w =>
      rw [hout] at hstep
      simpa [runOutW] using hstep

/-- C10: whenever `syncConfigs` terminates by raising an error (conflict
cancel, strict-mode missing source, filesystem refusal or failure during
apply, ...), the persisted state snapshot is not written at all: the
world at the throw still carries the previous snapshot unchanged, so
mappings applied earlier in the failing run are not recorded as
managed. -/
theorem C10_error_leaves_snapshot_unchanged (opts : SyncOptions)
    (pms : List PreMapping) (w₀ : World) (e : Err) (w' : World)
    (h : syncConfigs opts pms w₀ = .err e w') : w'.stateFile = w₀.stateFile := by
  unfold syncConfigs at h
  dsimp only at h
  set st₀ : RunSt := ⟨w₀, ⟨opts.conflictPolicy, true⟩, [], [], []⟩ with hst₀
  have hloop := (runLoop_world_const opts (readState w₀)
    (pms.map (fun pm => Mapping.mk pm.agent pm.source pm.target
      (resolveSyncMode opts.linkMode w₀.symlinkOk))) st₀).1
  cases hout : runLoop opts (readState w₀)
      ⟨w₀, ⟨opts.conflictPolicy, true⟩, [], [], []⟩
      (pms.map (fun pm => Mapping.mk pm.agent pm.source pm.target
        (resolveSyncMode opts.linkMode w₀.symlinkOk))) with
  | fail e₀ w₀' =>
    rw [hout] at h hloop
    simp only [runOutW] at hloop
    cases h
    exact hloop
  | cont st =>
    rw [hout] at h hloop
    simp only [runOutW] at hloop
    by_cases hdry : opts.dryRun
    · simp [hdry] at h
    · simp only [hdry, if_neg, Bool.false_eq_true, if_false] at h
      cases hbs : buildState opts.scopeMode opts.projectRoot st.updated
          (readState w₀) st.w.fs st.w.now with
      | error e₁ =>
        rw [hbs] at h
        cases h
        exact hloop
      | ok newState =>
        rw [hbs] at h
        simp at h

/-- Witness for C10 at a strict-mode missing-source run. -/
theorem C10_error_leaves_snapshot_unchanged_witness :
    syncConfigs { exOpts with strict := true } [exPmMissing] exWorld =
      .err (.agent "Missing source: /srcroot/gone.md" .validation) exWorld ∧
    exWorld.stateFile = exWorld.stateFile :=
  ⟨by decide,
    C10_error_leaves_snapshot_unchanged { exOpts with strict := true }
      [exPmMissing] exWorld
      (.agent "Missing source: /srcroot/gone.md" .validation) exWorld (by decide)⟩

/-! ## Loop bookkeeping lemmas -/

@[simp] theorem runLoop_nil (opts : SyncOptions) (ex : Option SyncState)
    (st : RunSt) : runLoop opts ex st [] = .cont st := rfl

theorem runLoop_cons (opts : SyncOptions) (ex : Option SyncState)
    (st : RunSt) (m : Mapping) (rest : List Mapping) :
    runLoop opts ex st (m :: rest) =
      (match syncStep opts ex st m with
       | .cont st' => runLoop opts ex st' rest
       | .fail e w => .fail e w) := rfl

theorem syncStep_skipped_mono (opts : SyncOptions) (ex : Option SyncState)
    (st : RunSt) (m : Mapping) (st' : RunSt)
    (h : syncStep opts ex st m = .cont st') : st.skipped <+: st'.skipped := by
  unfold syncStep applyPhase at h
  dsimp only at h
  repeat' split at h
  all_goals first
    | (cases h; exact List.prefix_append _ _)
    | (cases h; exact List.prefix_refl _)
    | cases h

theorem runLoop_skipped_mono (opts : SyncOptions) (ex : Option SyncState)
    (ms : List Mapping) : ∀ st fin, runLoop opts ex st ms = .cont fin →
    st.skipped <+: fin.skipped := by
  induction ms with
  | nil =>
    intro st fin h
    cases h
    exact List.prefix_refl _
  | cons m rest ih =>
    intro st fin h
    unfold runLoop at h
    cases hout : syncStep opts ex st m with
    | cont st' =>
      rw [hout] at h
      exact (syncStep_skipped_mono opts ex st m st' hout).trans (ih st' fin h)
    | fail e w => rw [hout] at h; cases h

/-- C6: a mapping whose source does not exist fails the whole run with a
Validation error in strict mode; in non-strict mode it records a warning
naming the missing source, goes to the skipped list (never to updated,
and the world -- in particular the target -- is untouched), and the loop
continues with the remaining mappings; the mapping is in the final
skipped list whenever the run's loop completes. -/
theorem C6_missing_source_skips_or_fails (opts : SyncOptions)
    (ex : Option SyncState) (st : RunSt) (m : Mapping) (rest : List Mapping)
    (hmiss : fileExists st.w.fs m.source = false) :
    (opts.strict = true →
      runLoop opts ex st (m :: rest) =
        .fail (.agent ("Missing source: " ++ pathStr m.source) .validation) st.w) ∧
    (opts.strict = false →
      runLoop opts ex st (m :: rest) =
        runLoop opts ex { st with
          warnings := st.warnings ++ ["Skipping missing source: " ++ pathStr m.source]
          skipped := st.skipped ++ [m] } rest) ∧
    (opts.strict = false → ∀ fin, runLoop opts ex st (m :: rest) = .cont fin →
      m ∈ fin.skipped) := by
  have hskip : opts.strict = false → syncStep opts ex st m =
      .cont { st with
        warnings := st.warnings ++ ["Skipping missing source: " ++ pathStr m.source]
        skipped := st.skipped ++ [m] } := by
    intro hlax
    unfold syncStep
    dsimp only
    simp [hmiss, hlax]
  refine ⟨fun hstrict => ?_, fun hlax => ?_, fun hlax fin hfin => ?_⟩
  · have hstep : syncStep opts ex st m =
        .fail (.agent ("Missing source: " ++ pathStr m.source) .validation) st.w := by
      unfold syncStep
      dsimp only
      simp [hmiss, hstrict]
    rw [runLoop_cons, hstep]
  · rw [runLoop_cons, hskip hlax]
  · rw [runLoop_cons, hskip hlax] at hfin
    have hpre := runLoop_skipped_mono opts ex rest _ fin hfin
    exact hpre.subset (by simp)

/-- Witness for C6 at a concrete missing-source mapping. -/
theorem C6_missing_source_skips_or_fails_witness :
    fileExists exWorld.fs ["srcroot", "gone.md"] = false ∧
    ((({ exOpts with strict := true } : SyncOptions).strict = true →
      runLoop { exOpts with strict := true } none
          ⟨exWorld, ⟨none, true⟩, [], [], []⟩
          [⟨"codex", ["srcroot", "gone.md"], ["home", "X.md"], .link⟩] =
        .fail (.agent ("Missing source: " ++ pathStr ["srcroot", "gone.md"])
          .validation) exWorld) ∧
    (({ exOpts with strict := true } : SyncOptions).strict = false →
      runLoop { exOpts with strict := true } none
          ⟨exWorld, ⟨none, true⟩, [], [], []⟩
          [⟨"codex", ["srcroot", "gone.md"], ["home", "X.md"], .link⟩] =
        runLoop { exOpts with strict := true } none
          ⟨exWorld, ⟨none, true⟩,
            [] ++ ["Skipping missing source: " ++ pathStr ["srcroot", "gone.md"]],
            [], [] ++ [⟨"codex", ["srcroot", "gone.md"], ["home", "X.md"], .link⟩]⟩ []) ∧
    (({ exOpts with strict := true } : SyncOptions).strict = false → ∀ fin,
      runLoop { exOpts with strict := true } none
          ⟨exWorld, ⟨none, true⟩, [], [], []⟩
          [⟨"codex", ["srcroot", "gone.md"], ["home", "X.md"], .link⟩] = .cont fin →
      (⟨"codex", ["srcroot", "gone.md"], ["home", "X.md"], .link⟩ : Mapping) ∈
        fin.skipped)) :=
  ⟨by decide,
    C6_missing_source_skips_or_fails { exOpts with strict := true } none
      ⟨exWorld, ⟨none, true⟩, [], [], []⟩
      ⟨"codex", ["srcroot", "gone.md"], ["home", "X.md"], .link⟩ [] (by decide)⟩

/-! ## Conflict policy as run-wide state (claim C7) -/

theorem resolveConflictPolicy_fixed (cs : ConflictState) (p : ConflictPolicy)
    (tty : Bool) (stdin : List String) (hp : cs.policy = some p) :
    resolveConflictPolicy cs tty stdin = (⟨p, cs⟩, stdin) := by
  unfold resolveConflictPolicy
  rw [hp]

theorem syncStep_policy_fixed (opts : SyncOptions) (ex : Option SyncState)
    (st : RunSt) (m : Mapping) (p : ConflictPolicy)
    (hp : st.cs.policy = some p) (st' : RunSt)
    (h : syncStep opts ex st m = .cont st') : st'.cs.policy = some p := by
  unfold syncStep applyPhase at h
  dsimp only at h
  rw [resolveConflictPolicy_fixed st.cs p st.w.isTTY st.w.stdin hp] at h
  repeat' split at h
  all_goals first
    | (cases h; exact hp)
    | cases h

theorem runLoop_policy_fixed (opts : SyncOptions) (ex : Option SyncState)
    (ms : List Mapping) : ∀ st fin (p : ConflictPolicy),
    st.cs.policy = some p → runLoop opts ex st ms = .cont fin →
    fin.cs.policy = some p := by
  induction ms with
  | nil =>
    intro st fin p hp h
    cases h
    exact hp
  | cons m rest ih =>
    intro st fin p hp h
    rw [runLoop_cons] at h
    cases hout : syncStep opts ex st m with
    | cont st' =>
      rw [hout] at h
      exact ih st' fin p (syncStep_policy_fixed opts ex st m p hp st' hout) h
    | fail e w => rw [hout] at h; cases h

/-- C7: the conflict policy is run-wide state.  (a) Once fixed, every
subsequent conflict resolution returns that same action and leaves the
state unchanged; (b) when the process cannot prompt (asking disabled or
no TTY) an unresolved conflict defaults to skip and fixes skip as the
policy for the rest of the run; (c) a policy fixed at any point in the
loop is still fixed, unchanged, at every later point of the run. -/
theorem C7_conflict_policy_is_run_wide :
    (∀ (cs : ConflictState) (p : ConflictPolicy) (tty : Bool) (stdin : List String),
      cs.policy = some p →
      resolveConflictPolicy cs tty stdin = (⟨p, cs⟩, stdin)) ∧
    (∀ (cs : ConflictState) (tty : Bool) (stdin : List String),
      cs.policy = none → (cs.canAsk = false ∨ tty = false) →
      resolveConflictPolicy cs tty stdin =
        (⟨.skip, { cs with policy := some .skip }⟩, stdin)) ∧
    (∀ (opts : SyncOptions) (ex : Option SyncState) (ms : List Mapping)
      (st fin : RunSt) (p : ConflictPolicy),
      st.cs.policy = some p → runLoop opts ex st ms = .cont fin →
      fin.cs.policy = some p) := by
  refine ⟨resolveConflictPolicy_fixed, ?_, runLoop_policy_fixed⟩
  intro cs tty stdin hnone hcant
  unfold resolveConflictPolicy
  rw [hnone]
  rcases hcant with hask | htty
  · simp [hask]
  · simp [htty]

/-- Witness for C7: a fixed overwrite policy is returned unchanged; a
non-interactive unresolved conflict fixes skip; a skip policy fixed at
the start of a one-conflict loop is still fixed at its end. -/
theorem C7_conflict_policy_is_run_wide_witness :
    resolveConflictPolicy ⟨some .overwrite, true⟩ true ["1"] =
      (⟨.overwrite, ⟨some .overwrite, true⟩⟩, ["1"]) ∧
    resolveConflictPolicy ⟨none, true⟩ false [] =
      (⟨.skip, ⟨some .skip, true⟩⟩, []) ∧
    (⟨exWorldTgt, ⟨some .skip, true⟩,
      ["Skipping unmanaged target: /home/AGENTS.md"], [],
      [⟨"codex", ["srcroot", "agent.md"], ["home", "AGENTS.md"], .link⟩]⟩ :
        RunSt).cs.policy = some .skip :=
  ⟨C7_conflict_policy_is_run_wide.1 ⟨some .overwrite, true⟩ .overwrite true ["1"] rfl,
    C7_conflict_policy_is_run_wide.2.1 ⟨none, true⟩ false [] rfl (Or.inr rfl),
    C7_conflict_policy_is_run_wide.2.2 { exOpts with force := false } none
      [⟨"codex", ["srcroot", "agent.md"], ["home", "AGENTS.md"], .link⟩]
      ⟨exWorldTgt, ⟨some .skip, true⟩, [], [], []⟩
      ⟨exWorldTgt, ⟨some .skip, true⟩,
        ["Skipping unmanaged target: /home/AGENTS.md"], [],
        [⟨"codex", ["srcroot", "agent.md"], ["home", "AGENTS.md"], .link⟩]⟩
      .skip rfl (by decide)⟩

/-! ## Cancel aborts the run (claim C8) -/

theorem runLoop_append (opts : SyncOptions) (ex : Option SyncState)
    (xs ys : List Mapping) : ∀ st,
    runLoop opts ex st (xs ++ ys) =
      (match runLoop opts ex st xs with
       | .cont st' => runLoop opts ex st' ys
       | .fail e w => .fail e w) := by
  induction xs with
  | nil => intro st; simp
  | cons x xs ih =>
    intro st
    rw [List.cons_append, runLoop_cons, runLoop_cons]
    cases syncStep opts ex st x with
    | cont st' => exact ih st'
    | fail e w => rfl

theorem syncStep_cancel (opts : SyncOptions) (ex : Option SyncState)
    (st : RunSt) (m : Mapping)
    (hsrc : fileExists st.w.fs m.source = true)
    (htgt : fileExists st.w.fs m.target = true)
    (hforce : opts.force = false)
    (hman : isManaged m.target ex = false)
    (hdec : (resolveConflictPolicy st.cs st.w.isTTY st.w.stdin).1.action = .cancel) :
    syncStep opts ex st m = .fail (.agent "Sync cancelled" .conflict)
      { st.w with stdin := (resolveConflictPolicy st.cs st.w.isTTY st.w.stdin).2 } := by
  unfold syncStep
  dsimp only
  simp [hsrc, htgt, hforce, hman, hdec]

/-- C8: when the conflict decision for a mapping is cancel, the whole
run aborts immediately with a Conflict error "Sync cancelled", and the
world at the throw is exactly the world the already-processed prefix of
the run produced (only the prompt's stdin consumption differs): nothing
applied earlier is rolled back. -/
theorem C8_cancel_aborts_run_without_rollback (opts : SyncOptions)
    (pms : List PreMapping) (w₀ : World) (ms₁ ms₂ : List Mapping)
    (m : Mapping) (st' : RunSt)
    (hsplit : pms.map (fun pm => Mapping.mk pm.agent pm.source pm.target
        (resolveSyncMode opts.linkMode w₀.symlinkOk)) = ms₁ ++ m :: ms₂)
    (hpre : runLoop opts (readState w₀)
      ⟨w₀, ⟨opts.conflictPolicy, true⟩, [], [], []⟩ ms₁ = .cont st')
    (hsrc : fileExists st'.w.fs m.source = true)
    (htgt : fileExists st'.w.fs m.target = true)
    (hforce : opts.force = false)
    (hman : isManaged m.target (readState w₀) = false)
    (hdec : (resolveConflictPolicy st'.cs st'.w.isTTY st'.w.stdin).1.action =
      .cancel) :
    syncConfigs opts pms w₀ = .err (.agent "Sync cancelled" .conflict)
      { st'.w with stdin := (resolveConflictPolicy st'.cs st'.w.isTTY st'.w.stdin).2 } := by
  unfold syncConfigs
  dsimp only
  rw [hsplit, runLoop_append, hpre]
  dsimp only
  rw [runLoop_cons, syncStep_cancel opts (readState w₀) st' m hsrc htgt hforce hman hdec]

/-- Witness for C8: two mappings with a cancel policy; the first applies
(a symlink at `/home1/A.md`), the second hits a pre-existing unmanaged
target and cancels; the error world still holds the first symlink. -/
theorem C8_cancel_aborts_run_without_rollback_witness :
    syncConfigs { exOpts with force := false, conflictPolicy := some .cancel }
        [⟨"codex", ["srcroot", "agent.md"], ["home1", "A.md"]⟩, exPm] exWorldTgt =
      .err (.agent "Sync cancelled" .conflict)
        { exStAfterFirst.w with
          stdin := (resolveConflictPolicy exStAfterFirst.cs
            exStAfterFirst.w.isTTY exStAfterFirst.w.stdin).2 } ∧
    lookupE exStAfterFirst.w.fs ["home1", "A.md"] =
      some (.symlink ["srcroot", "agent.md"]) :=
  ⟨C8_cancel_aborts_run_without_rollback
      { exOpts with force := false, conflictPolicy := some .cancel }
      [⟨"codex", ["srcroot", "agent.md"], ["home1", "A.md"]⟩, exPm] exWorldTgt
      [⟨"codex", ["srcroot", "agent.md"], ["home1", "A.md"], .link⟩] []
      ⟨"codex", ["srcroot", "agent.md"], ["home", "AGENTS.md"], .link⟩
      exStAfterFirst (by decide) (by decide) (by decide) (by decide)
      (by decide) (by decide) (by decide),
    by decide⟩

/-! ## Directory-chain lemmas (writability of a path) -/

theorem setE_isSome_of_dirChain {p : Path} {es : EntryList} (v : FNode)
    (h : dirChain es p = true) : (setE es p v).isSome := by
  induction p generalizing es with
  | nil => simp [dirChain] at h
  | cons x rest ih =>
    cases rest with
    | nil => simp [setE]
    | cons y rest' =>
      simp only [dirChain] at h
      cases hx : lookupA es x with
      | none => rw [hx] at h; simp at h
      | some n =>
        cases n with
        | file c => rw [hx] at h; simp at h
        | symlink t => rw [hx] at h; simp at h
        | dir es₁ =>
          rw [hx] at h
          have := ih h
          simp only [setE, hx]
          cases hset : setE es₁ (y :: rest') v with
          | none => rw [hset] at this; simp at this
          | some es₁' => simp

theorem dirChain_append_of_ensure {q : Path} {es es' : EntryList}
    (h : ensureDirE es q = some es') (x : String) :
    dirChain es' (q ++ [x]) = true := by
  induction q generalizing es es' with
  | nil =>
    simp only [ensureDirE, Option.some.injEq] at h
    subst h
    simp [dirChain]
  | cons y q' ih =>
    cases hy : lookupA es y with
    | none =>
      simp only [ensureDirE, hy] at h
      obtain ⟨d', hd', rfl⟩ := Option.map_eq_some'.mp h
      have hrest := ih hd'
      rw [List.cons_append]
      cases hq : q' ++ [x] with
      | nil => exact absurd hq (by simp)
      | cons z zs =>
        rw [hq] at hrest
        simp only [dirChain, lookupA_setA_self]
        exact hrest
    | some n =>
      cases n with
      | file c => simp [ensureDirE, hy] at h
      | symlink t => simp [ensureDirE, hy] at h
      | dir es₁ =>
        simp only [ensureDirE, hy] at h
        obtain ⟨es₁', hd', rfl⟩ := Option.map_eq_some'.mp h
        have hrest := ih hd'
        rw [List.cons_append]
        cases hq : q' ++ [x] with
        | nil => exact absurd hq (by simp)
        | cons z zs =>
          rw [hq] at hrest
          simp only [dirChain, lookupA_setA_self]
          exact hrest

theorem dirChain_removeE {p : Path} {es : EntryList}
    (h : dirChain es p = true) : dirChain (removeE es p) p = true := by
  induction p generalizing es with
  | nil => simp [dirChain] at h
  | cons x rest ih =>
    cases rest with
    | nil => simp [dirChain]
    | cons y rest' =>
      simp only [dirChain] at h
      cases hx : lookupA es x with
      | none => rw [hx] at h; simp at h
      | some n =>
        cases n with
        | file c => rw [hx] at h; simp at h
        | symlink t => rw [hx] at h; simp at h
        | dir es₁ =>
          rw [hx] at h
          simp only [removeE, hx, dirChain, lookupA_setA_self]
          exact ih h

theorem lookupE_of_getTargetInfo_none {es : EntryList} {p : Path}
    (h : getTargetInfo es p = none) : lookupE es p = none := by
  unfold getTargetInfo at h
  cases hl : lookupE es p with
  | none => rfl
  | some n => cases n <;> simp [hl] at h

/-! ## Link-mode apply results (claim C1) -/

theorem symlinkOp_ok_lookup {es es' : EntryList} {src dst : Path}
    (h : symlinkOp true es src dst = .ok es') :
    lookupE es' dst = some (.symlink src) := by
  unfold symlinkOp at h
  simp only [Bool.not_true, Bool.false_eq_true, if_false] at h
  by_cases hex : (lookupE es dst).isSome
  · simp [hex] at h
  · simp only [hex, Bool.false_eq_true, if_false] at h
    cases hset : setE es dst (.symlink src) with
    | none => rw [hset] at h; simp at h
    | some es'' =>
      rw [hset] at h
      simp only [Except.ok.injEq] at h
      subst h
      exact lookupE_setE_self hset

theorem symlinkOp_ok_of (es : EntryList) (src dst : Path)
    (hnone : lookupE es dst = none) (hchain : dirChain es dst = true) :
    ∃ es', symlinkOp true es src dst = .ok es' := by
  unfold symlinkOp
  simp only [hnone, Option.isSome_none, Bool.not_true, Bool.false_eq_true, if_false]
  have := setE_isSome_of_dirChain (.symlink src) hchain
  cases hset : setE es dst (.symlink src) with
  | none => rw [hset] at this; simp at this
  | some es'' => exact ⟨es'', by simp⟩

theorem tryLink_ok_symlink {es : EntryList} {m : Mapping} {allow : Bool}
    {u : Unit} {es₂ : EntryList}
    (h : tryLink true es m allow = .ok u es₂) :
    lookupE es₂ m.target = some (.symlink m.source) := by
  unfold tryLink at h
  cases hsrc : lookupE es m.source with
  | none => rw [hsrc] at h; simp at h
  | some srcNode =>
    rw [hsrc] at h
    dsimp only at h
    cases hl : lookupE es m.target with
    | none =>
      simp only [getTargetInfo, hl] at h
      cases hop : symlinkOp true es m.source m.target with
      | error msg => rw [hop] at h; simp at h
      | ok es' =>
        rw [hop] at h
        simp only [if_true, reduceIte, FsRes.ok.injEq] at h
        rw [← h.2]
        exact symlinkOp_ok_lookup hop
    | some node =>
      cases node with
      | symlink t =>
        simp only [getTargetInfo, hl] at h
        by_cases ht : t = m.source
        · subst ht
          simp only [if_pos rfl, if_true, reduceIte] at h
          simp only [if_true, reduceIte, FsRes.ok.injEq] at h
          rw [← h.2, hl]
        · simp only [Option.some.injEq, ht, if_false, reduceIte] at h
          cases hop : symlinkOp true (removeE es m.target) m.source m.target with
          | error msg => rw [hop] at h; simp at h
          | ok es' =>
            rw [hop] at h
            simp only [if_true, reduceIte, FsRes.ok.injEq] at h
            rw [← h.2]
            exact symlinkOp_ok_lookup hop
      | file c =>
        simp only [getTargetInfo, hl] at h
        simp only [Bool.false_eq_true, if_false, reduceIte] at h
        cases hop : symlinkOp true (removeE es m.target) m.source m.target with
        | error msg => rw [hop] at h; simp at h
        | ok es' =>
          rw [hop] at h
          simp only [if_true, reduceIte, FsRes.ok.injEq] at h
          rw [← h.2]
          exact symlinkOp_ok_lookup hop
      | dir es₁ =>
        simp only [getTargetInfo, hl] at h
        simp only [Bool.false_eq_true, if_false, if_true, reduceIte] at h
        cases es₁ with
        | nil =>
          simp only [removeDirectory, removeEmptyDirectory, hl] at h
          cases hallow : allow with
          | false =>
            rw [hallow] at h
            simp only [Bool.not_false, if_true] at h
            cases hop : symlinkOp true (removeE es m.target) m.source m.target with
            | error msg => rw [hop] at h; simp at h
            | ok es' =>
              rw [hop] at h
              simp only [if_true, reduceIte, FsRes.ok.injEq] at h
              rw [← h.2]
              exact symlinkOp_ok_lookup hop
          | true =>
            rw [hallow] at h
            simp only [Bool.not_true, Bool.false_eq_true, if_false] at h
            cases hop : symlinkOp true (removeE es m.target) m.source m.target with
            | error msg => rw [hop] at h; simp at h
            | ok es' =>
              rw [hop] at h
              simp only [if_true, reduceIte, FsRes.ok.injEq] at h
              rw [← h.2]
              exact symlinkOp_ok_lookup hop
        | cons a b c =>
          simp only [removeDirectory, removeEmptyDirectory, hl] at h
          cases hallow : allow with
          | false =>
            rw [hallow] at h
            simp at h
          | true =>
            rw [hallow] at h
            simp only [Bool.not_true, Bool.false_eq_true, if_false] at h
            cases hop : symlinkOp true (removeE es m.target) m.source m.target with
            | error msg => rw [hop] at h; simp at h
            | ok es' =>
              rw [hop] at h
              simp only [if_true, reduceIte, FsRes.ok.injEq] at h
              rw [← h.2]
              exact symlinkOp_ok_lookup hop

theorem tryLink_no_raw {es : EntryList} {m : Mapping} {allow : Bool}
    (hchain : dirChain es m.target = true)
    (hsrc : (lookupE es m.source).isSome) (msg : String) (es₂ : EntryList) :
    tryLink true es m allow ≠ .err (.raw msg) es₂ := by
  intro h
  unfold tryLink at h
  cases hsrc0 : lookupE es m.source with
  | none => rw [hsrc0] at hsrc; simp at hsrc
  | some srcNode =>
    rw [hsrc0] at h
    dsimp only at h
    cases hl : lookupE es m.target with
    | none =>
      simp only [getTargetInfo, hl] at h
      obtain ⟨es', hop⟩ := symlinkOp_ok_of es m.source m.target hl hchain
      rw [hop] at h
      simp at h
    | some node =>
      have hchain' : dirChain (removeE es m.target) m.target = true :=
        dirChain_removeE hchain
      have hnone' : lookupE (removeE es m.target) m.target = none :=
        lookupE_removeE_self es m.target
      obtain ⟨es', hop⟩ :=
        symlinkOp_ok_of (removeE es m.target) m.source m.target hnone' hchain'
      cases node with
      | symlink t =>
        simp only [getTargetInfo, hl] at h
        by_cases ht : t = m.source
        · subst ht; simp at h
        · simp only [Option.some.injEq, ht, reduceIte] at h
          rw [hop] at h
          simp at h
      | file c =>
        simp only [getTargetInfo, hl, Bool.false_eq_true, reduceIte] at h
        rw [hop] at h
        simp at h
      | dir es₁ =>
        simp only [getTargetInfo, hl, Bool.false_eq_true, reduceIte] at h
        cases es₁ with
        | nil =>
          simp only [removeDirectory, removeEmptyDirectory, hl] at h
          cases hallow : allow with
          | false =>
            rw [hallow] at h
            simp only [Bool.not_false, if_true] at h
            rw [hop] at h
            simp at h
          | true =>
            rw [hallow] at h
            simp only [Bool.not_true, Bool.false_eq_true, if_false] at h
            rw [hop] at h
            simp at h
        | cons a b c =>
          simp only [removeDirectory, removeEmptyDirectory, hl] at h
          cases hallow : allow with
          | false =>
            rw [hallow] at h
            simp at h
          | true =>
            rw [hallow] at h
            simp only [Bool.not_true, Bool.false_eq_true, if_false] at h
            rw [hop] at h
            simp at h

theorem copyFileOrDir_nil_dst (es : EntryList) (src : Path) {u : Unit}
    {es' : EntryList} : copyFileOrDir es src [] ≠ .ok u es' := by
  intro h
  unfold copyFileOrDir at h
  cases h₁ : lookupE es src with
  | none => rw [h₁] at h; simp at h
  | some n =>
    rw [h₁] at h
    dsimp only at h
    cases h₂ : copyInto es (lookupE es []) n with
    | error msg => rw [h₂] at h; simp at h
    | ok n' =>
      rw [h₂] at h
      simp [ensureDirE, setE] at h

theorem finishCopy_nil_not_ok {es : EntryList} {m : Mapping}
    (htgt : m.target = []) {u : Unit} {es' : EntryList} :
    finishCopy es m ≠ .ok u es' := by
  intro h
  unfold finishCopy ensureTargetParent at h
  rw [htgt] at h
  simp only [List.dropLast_nil, ensureDirE, fileExists, List.isEmpty_nil,
    Bool.true_or, if_true, if_pos] at h
  exact copyFileOrDir_nil_dst es m.source h

theorem applyCopyMapping_nil_not_ok {es : EntryList} {m : Mapping}
    {allow : Bool} (htgt : m.target = []) {u : Unit} {es' : EntryList} :
    applyCopyMapping es m allow ≠ .ok u es' := by
  intro h
  unfold applyCopyMapping at h
  cases h₁ : lookupE es m.source with
  | none => rw [h₁] at h; simp at h
  | some srcNode =>
    rw [h₁] at h
    have hinfo : getTargetInfo es m.target = none := by
      rw [htgt]; simp [getTargetInfo]
    rw [hinfo] at h
    dsimp only at h
    cases srcNode with
    | file c => exact finishCopy_nil_not_ok htgt h
    | symlink t => exact finishCopy_nil_not_ok htgt h
    | dir d => exact finishCopy_nil_not_ok htgt h

/-- The amended C1: for a mapping processed on the link path, when the
apply step succeeds *without the symlink-failure fallback to copy* -- in
particular always, whenever the platform can create symlinks -- the
resulting target is a symlink whose literal link text is the mapping's
absolute source path. -/
theorem C1_link_apply_success_yields_symlink (es₀ : EntryList) (m : Mapping)
    (ws : List String) (allow : Bool) (ws' : List String) (es' : EntryList)
    (hmode : m.mode = .link)
    (h : applyMapping true es₀ m ws allow = .ok ws' es') :
    lookupE es' m.target = some (.symlink m.source) := by
  unfold applyMapping at h
  rw [hmode] at h
  simp only [reduceCtorEq, if_false, reduceIte] at h
  cases hp : ensureTargetParent es₀ m.target.dropLast m.target (some ws) with
  | err e es₁ => rw [hp] at h; simp at h
  | ok ws₁ es₁ =>
    rw [hp] at h
    dsimp only at h
    cases ht : tryLink true es₁ m allow with
    | ok u es₂ =>
      rw [ht] at h
      simp only [FsRes.ok.injEq] at h
      rw [← h.2]
      exact tryLink_ok_symlink ht
    | err e es₂ =>
      cases e with
      | agent msg code => rw [ht] at h; simp at h
      | raw msg =>
        rw [ht] at h
        dsimp only at h
        rcases htgt : m.target with _ | ⟨a, p'⟩
        · cases hcp : applyCopyMapping es₂ m allow with
          | ok u₂ es₃ => exact absurd hcp (applyCopyMapping_nil_not_ok htgt)
          | err e₂ es₃ => rw [hcp] at h; simp at h
        · have htne : m.target ≠ [] := by rw [htgt]; simp
          have hens : ensureDirE es₀ m.target.dropLast = some es₁ := by
            unfold ensureTargetParent at hp
            cases he : ensureDirE es₀ m.target.dropLast with
            | none => rw [he] at hp; simp at hp
            | some es₁' =>
              rw [he] at hp
              dsimp only at hp
              split at hp <;> (simp only [FsRes.ok.injEq] at hp; rw [hp.2])
          have hchain : dirChain es₁ m.target = true := by
            have := dirChain_append_of_ensure hens (m.target.getLast htne)
            rwa [List.dropLast_append_getLast htne] at this
          cases hs : lookupE es₁ m.source with
          | some n =>
            exact absurd ht (tryLink_no_raw hchain (by rw [hs]; rfl) msg es₂)
          | none =>
            have hes₂ : es₂ = es₁ ∧
                tryLink true es₁ m allow = .err (.raw
                  ("lstat failed: " ++ pathStr m.source)) es₁ := by
              unfold tryLink at ht ⊢
              rw [hs] at ht ⊢
              exact ⟨(by cases ht; rfl), rfl⟩
            cases hcp : applyCopyMapping es₂ m allow with
            | ok u₂ es₃ =>
              rw [hes₂.1] at hcp
              unfold applyCopyMapping at hcp
              rw [hs] at hcp
              simp at hcp
            | err e₂ es₃ => rw [hcp] at h; simp at h

/-- Counterexample to C1 as stated: on a platform that cannot create
symlinks, the apply step of a link-mode mapping *succeeds* (with a
fallback warning), yet the resulting target is a regular file, not a
symlink. -/
theorem C1_counterexample_fallback_copy_succeeds :
    applyMapping false exFs
        ⟨"codex", ["srcroot", "agent.md"], ["home", "AGENTS.md"], .link⟩ [] true =
      .ok ["Created target parent directory: /home (for /home/AGENTS.md)",
        "Symlink failed for /home/AGENTS.md (EPERM: symlinks not supported); falling back to copy"]
        exFsCopied ∧
    lookupE exFsCopied ["home", "AGENTS.md"] = some (.file "hello") ∧
    (∀ t, lookupE exFsCopied ["home", "AGENTS.md"] ≠ some (.symlink t)) := by
  refine ⟨by decide, by decide, ?_⟩
  intro t h
  have h2 : lookupE exFsCopied ["home", "AGENTS.md"] = some (.file "hello") := by
    decide
  rw [h2] at h
  simp at h

/-- Witness for the amended C1 at a concrete link-mode apply. -/
theorem C1_link_apply_success_yields_symlink_witness :
    (⟨"codex", ["srcroot", "agent.md"], ["home", "AGENTS.md"], .link⟩ :
        Mapping).mode = SyncMode.link ∧
    applyMapping true exFs
        ⟨"codex", ["srcroot", "agent.md"], ["home", "AGENTS.md"], .link⟩ [] true =
      .ok ["Created target parent directory: /home (for /home/AGENTS.md)"]
        exFsLinked ∧
    lookupE exFsLinked ["home", "AGENTS.md"] =
      some (.symlink ["srcroot", "agent.md"]) :=
  ⟨rfl, by decide,
    C1_link_apply_success_yields_symlink exFs
      ⟨"codex", ["srcroot", "agent.md"], ["home", "AGENTS.md"], .link⟩ [] true
      ["Created target parent directory: /home (for /home/AGENTS.md)"]
      exFsLinked rfl (by decide)⟩

/-! ## Non-empty directory protection (claim C2) -/

theorem applyCopyMapping_refuses_nonempty_dir (es : EntryList) (m : Mapping)
    {a : String} {b : FNode} {c : EntryList}
    (hdir : lookupE es m.target = some (.dir (.cons a b c)))
    (hsrc : (lookupE es m.source).isSome) :
    applyCopyMapping es m false =
      .err (.agent ("Refusing to replace non-empty directory: " ++
        pathStr m.target) .filesystem) es := by
  unfold applyCopyMapping
  cases hs : lookupE es m.source with
  | none => rw [hs] at hsrc; simp at hsrc
  | some srcNode =>
    dsimp only
    simp only [getTargetInfo, hdir]
    cases srcNode with
    | file cc => simp [removeDirectory, removeEmptyDirectory, hdir]
    | symlink t => simp [removeDirectory, removeEmptyDirectory, hdir]
    | dir d => simp [removeDirectory, removeEmptyDirectory, hdir]

theorem applyMapping_refuses_nonempty_dir (sOk : Bool) (es : EntryList)
    (m : Mapping) (ws : List String) {a : String} {b : FNode} {c : EntryList}
    (hdir : lookupE es m.target = some (.dir (.cons a b c)))
    (hsrc : (lookupE es m.source).isSome) :
    applyMapping sOk es m ws false =
      .err (.agent ("Refusing to replace non-empty directory: " ++
        pathStr m.target) .filesystem) es := by
  have htne : m.target ≠ [] := by
    intro hnil
    rw [hnil] at hdir
    simp at hdir
  have hid : ensureDirE es m.target.dropLast = some es := by
    refine ensureDirE_id (x := m.target.getLast htne) (n := .dir (.cons a b c)) ?_
    rwa [List.dropLast_append_getLast htne]
  unfold applyMapping
  by_cases hmode : m.mode = .copy
  · simp only [hmode, if_pos rfl, reduceIte]
    rw [applyCopyMapping_refuses_nonempty_dir es m hdir hsrc]
  · simp only [hmode, if_neg, reduceIte]
    unfold ensureTargetParent
    rw [hid]
    dsimp only
    have htry : tryLink sOk es m false =
        .err (.agent ("Refusing to replace non-empty directory: " ++
          pathStr m.target) .filesystem) es := by
      unfold tryLink
      cases hs : lookupE es m.source with
      | none => rw [hs] at hsrc; simp at hsrc
      | some srcNode =>
        dsimp only
        simp [getTargetInfo, hdir, removeDirectory, removeEmptyDirectory]
    by_cases hpe : fileExists es (List.dropLast m.target) = true <;>
      simp only [hpe, if_true, Bool.false_eq_true, if_false, reduceIte, htry]

/-- C2: a non-empty existing directory at a mapping's target is
replaced only with explicit permission.  (a) At the engine loop level:
with no force, an unmanaged target and a conflict decision other than
overwrite/backup, processing the mapping leaves the filesystem
completely unchanged (the mapping is skipped or the run cancelled).
(b) At the apply level: without the non-empty-directory permission the
apply step refuses with the Filesystem error "Refusing to replace
non-empty directory" and leaves the tree exactly as it was. -/
theorem C2_nonempty_dir_replaced_only_with_permission :
    (∀ (opts : SyncOptions) (ex : Option SyncState) (st : RunSt) (m : Mapping)
      (a : String) (b : FNode) (c : EntryList),
      lookupE st.w.fs m.target = some (.dir (.cons a b c)) →
      opts.force = false →
      isManaged m.target ex = false →
      (resolveConflictPolicy st.cs st.w.isTTY st.w.stdin).1.action ≠ .overwrite →
      (resolveConflictPolicy st.cs st.w.isTTY st.w.stdin).1.action ≠ .backup →
      (runOutW (syncStep opts ex st m)).fs = st.w.fs) ∧
    (∀ (sOk : Bool) (es : EntryList) (m : Mapping) (ws : List String)
      (a : String) (b : FNode) (c : EntryList),
      lookupE es m.target = some (.dir (.cons a b c)) →
      (lookupE es m.source).isSome →
      applyMapping sOk es m ws false =
        .err (.agent ("Refusing to replace non-empty directory: " ++
          pathStr m.target) .filesystem) es) := by
  constructor
  · intro opts ex st m a b c hdir hforce hman how hbk
    unfold syncStep
    dsimp only
    cases hsrc : fileExists st.w.fs m.source with
    | false =>
      simp only [hsrc, Bool.not_false, if_true]
      cases opts.strict <;> simp [runOutW]
    | true =>
      have htgt : fileExists st.w.fs m.target = true := by
        unfold fileExists
        rw [hdir]
        simp
      simp only [hsrc, htgt, hforce, hman, Bool.not_true, Bool.false_eq_true,
        if_false, Bool.not_false, Bool.and_true, Bool.true_and, if_true]
      rcases hd : (resolveConflictPolicy st.cs st.w.isTTY st.w.stdin).1.action with
        _ | _ | _ | _
      · exact absurd hd how
      · exact absurd hd hbk
      · simp [hd, runOutW]
      · simp [hd, runOutW]
  · intro sOk es m ws a b c hdir hsrc
    exact applyMapping_refuses_nonempty_dir sOk es m ws hdir hsrc

/-- Witness for C2: a non-empty directory target, no force, unmanaged,
non-interactive (skip decision): the step leaves the filesystem alone;
and the apply level refuses with the Filesystem error. -/
theorem C2_nonempty_dir_replaced_only_with_permission_witness :
    lookupE exWorldDirTgt.fs ["home", "AGENTS.md"] =
      some (.dir (.cons "inner.txt" (.file "x") .nil)) ∧
    (runOutW (syncStep { exOpts with force := false } none
      ⟨exWorldDirTgt, ⟨none, true⟩, [], [], []⟩
      ⟨"codex", ["srcroot", "agent.md"], ["home", "AGENTS.md"], .link⟩)).fs =
      exWorldDirTgt.fs ∧
    applyMapping true exFsDirTgt
        ⟨"codex", ["srcroot", "agent.md"], ["home", "AGENTS.md"], .link⟩ [] false =
      .err (.agent ("Refusing to replace non-empty directory: " ++
        pathStr ["home", "AGENTS.md"]) .filesystem) exFsDirTgt :=
  ⟨by decide,
    C2_nonempty_dir_replaced_only_with_permission.1 { exOpts with force := false }
      none ⟨exWorldDirTgt, ⟨none, true⟩, [], [], []⟩
      ⟨"codex", ["srcroot", "agent.md"], ["home", "AGENTS.md"], .link⟩
      "inner.txt" (.file "x") .nil (by decide) (by decide) (by decide)
      (by decide) (by decide),
    C2_nonempty_dir_replaced_only_with_permission.2 true exFsDirTgt
      ⟨"codex", ["srcroot", "agent.md"], ["home", "AGENTS.md"], .link⟩ []
      "inner.txt" (.file "x") .nil (by decide) (by decide)⟩

/-! ## State merge (claim C9) -/

@[simp] theorem getKey_setKey_self {V : Type} (files : List (Path × V))
    (p : Path) (v : V) : getKey (setKey files p v) p = some v := by
  induction files with
  | nil => simp [setKey, getKey]
  | cons e rest ih =>
    obtain ⟨q, u⟩ := e
    by_cases hq : q = p
    · simp [setKey, getKey, hq]
    · simp [setKey, getKey, hq, ih]

theorem getKey_setKey_ne {V : Type} (files : List (Path × V)) {p q : Path}
    (h : q ≠ p) (v : V) : getKey (setKey files p v) q = getKey files q := by
  induction files with
  | nil => simp [setKey, getKey, Ne.symm h]
  | cons e rest ih =>
    obtain ⟨q', u⟩ := e
    by_cases hq : q' = p
    · subst hq
      simp [setKey, getKey, Ne.symm h, ih]
    · simp [setKey, getKey, hq, ih]

theorem lastTargeting_mem {ms : List Mapping} {p : Path} {m : Mapping}
    (h : lastTargeting ms p = some m) : m ∈ ms := by
  induction ms with
  | nil => simp [lastTargeting] at h
  | cons m₀ rest ih =>
    simp only [lastTargeting] at h
    cases hlt : lastTargeting rest p with
    | some m' =>
      rw [hlt] at h
      cases h
      exact List.mem_cons_of_mem _ (ih hlt)
    | none =>
      rw [hlt] at h
      by_cases htgt : m₀.target = p
      · rw [if_pos htgt] at h
        cases h
        exact List.mem_cons_self _ _
      · rw [if_neg htgt] at h
        cases h

theorem buildStateFiles_ok_each (es : EntryList) (ms : List Mapping) :
    ∀ files files', buildStateFiles es files ms = .ok files' →
    ∀ m ∈ ms, ∃ r, buildRecord es m = .ok r := by
  induction ms with
  | nil => intro files files' _ m hm; simp at hm
  | cons m₀ rest ih =>
    intro files files' h m hm
    unfold buildStateFiles at h
    cases hr : buildRecord es m₀ with
    | error e => rw [hr] at h; simp [bind, Except.bind] at h
    | ok r =>
      rw [hr] at h
      simp only [bind, Except.bind] at h
      rcases List.mem_cons.mp hm with rfl | hm'
      · exact ⟨r, hr⟩
      · exact ih _ _ h m hm'

theorem buildStateFiles_spec (es : EntryList) (ms : List Mapping) :
    ∀ files files', buildStateFiles es files ms = .ok files' →
    ∀ p, getKey files' p =
      (match lastTargeting ms p with
       | some m => (buildRecord es m).toOption
       | none => getKey files p) := by
  induction ms with
  | nil =>
    intro files files' h p
    simp only [buildStateFiles] at h
    cases h
    simp [lastTargeting]
  | cons m₀ rest ih =>
    intro files files' h p
    unfold buildStateFiles at h
    cases hr : buildRecord es m₀ with
    | error e => rw [hr] at h; simp [bind, Except.bind] at h
    | ok r =>
      rw [hr] at h
      simp only [bind, Except.bind] at h
      have := ih _ _ h p
      simp only [lastTargeting]
      cases hlt : lastTargeting rest p with
      | some m' =>
        rw [hlt] at this
        rw [this]
      | none =>
        rw [hlt] at this
        by_cases htgt : m₀.target = p
        · subst htgt
          rw [this]
          simp [hr, Except.toOption]
        · rw [this, if_neg htgt, getKey_setKey_ne files (fun hh => htgt hh.symm) r]

/-- C9: the SyncState written at the end of a successful non-dry run is
a merge, not a replacement.  Its files map yields, at every key, the
freshly re-probed record of the last mapping updated at that key in this
run, and the previous snapshot's entry unchanged at every key no mapping
of this run updated; in particular every key of the previous snapshot is
still present. -/
theorem C9_written_state_merges_previous (opts : SyncOptions)
    (pms : List PreMapping) (w₀ : World) (res : SyncResult) (w' : World)
    (h : syncConfigs opts pms w₀ = .ok res w') (hdry : opts.dryRun = false) :
    ∃ s : SyncState, w'.stateFile = some s ∧
      (∀ p, getKey s.files p =
        (match lastTargeting res.updated p with
         | some m => (buildRecord w'.fs m).toOption
         | none => getKey (match w₀.stateFile with
             | some st => st.files
             | none => []) p)) ∧
      (∀ p v, getKey (match w₀.stateFile with
          | some st => st.files
          | none => []) p = some v → (getKey s.files p).isSome) := by
  unfold syncConfigs at h
  dsimp only at h
  cases hloop : runLoop opts (readState w₀)
      ⟨w₀, ⟨opts.conflictPolicy, true⟩, [], [], []⟩
      (pms.map (fun pm => Mapping.mk pm.agent pm.source pm.target
        (resolveSyncMode opts.linkMode w₀.symlinkOk))) with
  | fail e w => rw [hloop] at h; simp at h
  | cont st =>
    rw [hloop] at h
    simp only [hdry, Bool.false_eq_true, if_false, reduceIte] at h
    cases hbs : buildState opts.scopeMode opts.projectRoot st.updated
        (readState w₀) st.w.fs st.w.now with
    | error e => rw [hbs] at h; simp at h
    | ok newState =>
      rw [hbs] at h
      simp only [WRes.ok.injEq] at h
      obtain ⟨hres, hw⟩ := h
      unfold buildState at hbs
      simp only [bind, Except.bind] at hbs
      cases hbf : buildStateFiles st.w.fs
          (match readState w₀ with | some st => st.files | none => [])
          st.updated with
      | error e => rw [hbf] at hbs; cases hbs
      | ok files' =>
        rw [hbf] at hbs
        simp only [Except.ok.injEq] at hbs
        refine ⟨newState, ?_, ?_, ?_⟩
        · rw [← hw]
          rfl
        · intro p
          have hspec := buildStateFiles_spec st.w.fs st.updated _ _ hbf p
          have hfs : w'.fs = st.w.fs := by rw [← hw]; rfl
          have hfiles : newState.files = files' := by rw [← hbs]
          have hupd : res.updated = st.updated := by rw [← hres]
          rw [hfiles, hfs, hupd]
          simpa [readState] using hspec
        · intro p v hv
          have hspec := buildStateFiles_spec st.w.fs st.updated _ _ hbf p
          have hfiles : newState.files = files' := by rw [← hbs]
          rw [hfiles, hspec]
          cases hlt : lastTargeting st.updated p with
          | some m =>
            obtain ⟨r, hr⟩ := buildStateFiles_ok_each st.w.fs st.updated _ _ hbf
              m (lastTargeting_mem hlt)
            simp [hr, Except.toOption]
          | none => simpa [readState] using congrArg Option.isSome hv

/-- Witness for C9: a run over a prior snapshot tracking `/keep/me`;
after syncing `agent.md -> /home/AGENTS.md` the written state holds the
new record and still carries the `/keep/me` entry unchanged. -/
theorem C9_written_state_merges_previous_witness :
    (∃ s : SyncState,
      (match syncConfigs exOpts [exPm] exWorldPrev with
        | .ok _ w' => w'.stateFile
        | .err _ _ => none) = some s ∧
      getKey s.files ["keep", "me"] =
        some ⟨["keep", "me"], ["srcroot", "old.md"], "codex", .copy, 0, 0,
          some "file:z", none⟩ ∧
      getKey s.files ["home", "AGENTS.md"] =
        some ⟨["home", "AGENTS.md"], ["srcroot", "agent.md"], "codex", .link,
          0, 0, none, some ["srcroot", "agent.md"]⟩) := by
  have h := C9_written_state_merges_previous exOpts [exPm] exWorldPrev
    ⟨[⟨"codex", ["srcroot", "agent.md"], ["home", "AGENTS.md"], .link⟩],
      [⟨"codex", ["srcroot", "agent.md"], ["home", "AGENTS.md"], .link⟩], [],
      ["Created target parent directory: /home (for /home/AGENTS.md)"]⟩
    { exWorldPrev with
      fs := exFsLinked
      stateFile := some ⟨1, exWorldPrev.now, .global, none,
        [(["keep", "me"],
          ⟨["keep", "me"], ["srcroot", "old.md"], "codex", .copy, 0, 0,
            some "file:z", none⟩),
         (["home", "AGENTS.md"],
          ⟨["home", "AGENTS.md"], ["srcroot", "agent.md"], "codex", .link,
            0, 0, none, some ["srcroot", "agent.md"]⟩)]⟩ }
    (by decide) rfl
  obtain ⟨s, hs, hall, _⟩ := h
  refine ⟨s, ?_, ?_, ?_⟩
  · rw [show syncConfigs exOpts [exPm] exWorldPrev = .ok
      ⟨[⟨"codex", ["srcroot", "agent.md"], ["home", "AGENTS.md"], .link⟩],
        [⟨"codex", ["srcroot", "agent.md"], ["home", "AGENTS.md"], .link⟩], [],
        ["Created target parent directory: /home (for /home/AGENTS.md)"]⟩
      { exWorldPrev with
        fs := exFsLinked
        stateFile := some ⟨1, exWorldPrev.now, .global, none,
          [(["keep", "me"],
            ⟨["keep", "me"], ["srcroot", "old.md"], "codex", .copy, 0, 0,
              some "file:z", none⟩),
           (["home", "AGENTS.md"],
            ⟨["home", "AGENTS.md"], ["srcroot", "agent.md"], "codex", .link,
              0, 0, none, some ["srcroot", "agent.md"]⟩)]⟩ } from by decide]
    exact hs
  · rw [hall ["keep", "me"]]
    decide
  · rw [hall ["home", "AGENTS.md"]]
    decide

/-! ## More chain lemmas -/

theorem pfx_le_length {p q : Path} (h : pfx p q) : p.length ≤ q.length := by
  unfold pfx at h
  have := congrArg List.length h
  simp only [List.length_take] at this
  omega

theorem not_pfx_dropLast_self {q : Path} (h : q ≠ []) : ¬ pfx q q.dropLast := by
  intro hc
  have hlen := pfx_le_length hc
  rw [List.length_dropLast] at hlen
  have : 0 < q.length := List.length_pos.mpr h
  omega

/-- Along an existing full parent chain, `mkdir -p` of the parent is a
complete no-op. -/
theorem ensureDirE_of_dirChain {p : Path} {es : EntryList}
    (h : dirChain es p = true) : ensureDirE es p.dropLast = some es := by
  induction p generalizing es with
  | nil => simp [dirChain] at h
  | cons x rest ih =>
    cases rest with
    | nil => rfl
    | cons y rest' =>
      simp only [dirChain] at h
      cases hx : lookupA es x with
      | none => rw [hx] at h; simp at h
      | some n =>
        cases n with
        | file c => rw [hx] at h; simp at h
        | symlink t => rw [hx] at h; simp at h
        | dir es₁ =>
          rw [hx] at h
          show ensureDirE es (x :: (y :: rest').dropLast) = some es
          simp only [ensureDirE, hx, ih h, Option.map_some']
          rw [setA_id hx]

theorem dirChain_setE_frame {t q : Path} {es es' : EntryList} {v : FNode}
    (hset : setE es t v = some es') (hpfx : ¬ pfx t q)
    (h : dirChain es q = true) : dirChain es' q = true := by
  induction q generalizing es es' t with
  | nil => simp [dirChain] at h
  | cons x rest ih =>
    cases rest with
    | nil => simp [dirChain]
    | cons y rest' =>
      simp only [dirChain] at h ⊢
      cases hx : lookupA es x with
      | none => rw [hx] at h; simp at h
      | some n =>
        cases n with
        | file c => rw [hx] at h; simp at h
        | symlink tt => rw [hx] at h; simp at h
        | dir es₁ =>
          rw [hx] at h
          cases t with
          | nil => simp [setE] at hset
          | cons z t' =>
            by_cases hz : z = x
            · subst hz
              cases t' with
              | nil =>
                exact absurd (by simp) hpfx
              | cons u t'' =>
                simp only [setE, hx] at hset
                obtain ⟨es₁', hset', rfl⟩ := Option.map_eq_some'.mp hset
                rw [lookupA_setA_self]
                exact ih hset' (fun hc => hpfx (by simp [hc])) h
            · cases t' with
              | nil =>
                simp only [setE, Option.some.injEq] at hset
                subst hset
                rw [lookupA_setA_ne _ (fun hh => hz hh.symm), hx]
                exact h
              | cons u t'' =>
                simp only [setE] at hset
                cases hzx : lookupA es z with
                | none => rw [hzx] at hset; simp at hset
                | some nz =>
                  cases nz with
                  | file c => rw [hzx] at hset; simp at hset
                  | symlink tt => rw [hzx] at hset; simp at hset
                  | dir esz =>
                    rw [hzx] at hset
                    obtain ⟨esz', hset', rfl⟩ := Option.map_eq_some'.mp hset
                    rw [lookupA_setA_ne _ (fun hh => hz hh.symm), hx]
                    exact h

theorem dirChain_removeE_frame {t q : Path} {es : EntryList}
    (hpfx : ¬ pfx t q) (h : dirChain es q = true) :
    dirChain (removeE es t) q = true := by
  induction q generalizing es t with
  | nil => simp [dirChain] at h
  | cons x rest ih =>
    cases rest with
    | nil => simp [dirChain]
    | cons y rest' =>
      simp only [dirChain] at h ⊢
      cases hx : lookupA es x with
      | none => rw [hx] at h; simp at h
      | some n =>
        cases n with
        | file c => rw [hx] at h; simp at h
        | symlink tt => rw [hx] at h; simp at h
        | dir es₁ =>
          rw [hx] at h
          cases t with
          | nil =>
            simp only [removeE]
            rw [hx]
            exact h
          | cons z t' =>
            by_cases hz : z = x
            · subst hz
              cases t' with
              | nil => exact absurd (by simp) hpfx
              | cons u t'' =>
                simp only [removeE, hx, lookupA_setA_self]
                exact ih (fun hc => hpfx (by simp [hc])) h
            · cases t' with
              | nil =>
                simp only [removeE]
                rw [lookupA_removeA_ne _ (fun hh => hz hh.symm), hx]
                exact h
              | cons u t'' =>
                simp only [removeE]
                cases hzx : lookupA es z with
                | none => dsimp only; rw [hx]; exact h
                | some nz =>
                  cases nz with
                  | file c => dsimp only; rw [hx]; exact h
                  | symlink tt => dsimp only; rw [hx]; exact h
                  | dir esz =>
                    dsimp only
                    rw [lookupA_setA_ne _ (fun hh => hz hh.symm), hx]
                    exact h

theorem dirChain_ensureDirE_frame {p q : Path} {es es' : EntryList}
    (hens : ensureDirE es p = some es') (h : dirChain es q = true) :
    dirChain es' q = true := by
  induction q generalizing es es' p with
  | nil => simp [dirChain] at h
  | cons x rest ih =>
    cases rest with
    | nil => simp [dirChain]
    | cons y rest' =>
      simp only [dirChain] at h ⊢
      cases hx : lookupA es x with
      | none => rw [hx] at h; simp at h
      | some n =>
        cases n with
        | file c => rw [hx] at h; simp at h
        | symlink tt => rw [hx] at h; simp at h
        | dir es₁ =>
          rw [hx] at h
          cases p with
          | nil =>
            simp only [ensureDirE, Option.some.injEq] at hens
            subst hens
            rw [hx]
            exact h
          | cons z p' =>
            by_cases hz : z = x
            · subst hz
              simp only [ensureDirE, hx] at hens
              obtain ⟨es₁', hens', rfl⟩ := Option.map_eq_some'.mp hens
              rw [lookupA_setA_self]
              exact ih hens' h
            · simp only [ensureDirE] at hens
              cases hzx : lookupA es z with
              | none =>
                rw [hzx] at hens
                obtain ⟨d', _, rfl⟩ := Option.map_eq_some'.mp hens
                rw [lookupA_setA_ne _ (fun hh => hz hh.symm), hx]
                exact h
              | some nz =>
                cases nz with
                | file c => rw [hzx] at hens; simp at hens
                | symlink tt => rw [hzx] at hens; simp at hens
                | dir esz =>
                  rw [hzx] at hens
                  obtain ⟨esz', _, rfl⟩ := Option.map_eq_some'.mp hens
                  rw [lookupA_setA_ne _ (fun hh => hz hh.symm), hx]
                  exact h

/-! ## Apply pipeline effect lemmas: everything an apply touches is at
or под the mapping's target (or creates parent directories), so lookups
at unrelated paths and parent chains of unrelated paths survive. -/

theorem copyFileOrDir_effects (es : EntryList) (src dst : Path) :
    (∀ q, ¬ pfx q dst → ¬ pfx dst q →
      lookupE (fsOf (copyFileOrDir es src dst)) q = lookupE es q) ∧
    (∀ q, ¬ pfx dst q → dirChain es q = true →
      dirChain (fsOf (copyFileOrDir es src dst)) q = true) := by
  unfold copyFileOrDir
  cases h₁ : lookupE es src with
  | none => simp [h₁, fsOf]
  | some n =>
    simp only [h₁]
    cases h₂ : copyInto es (lookupE es dst) n with
    | error msg => simp [h₂, fsOf]
    | ok n' =>
      simp only [h₂]
      cases h₃ : ensureDirE es dst.dropLast with
      | none => simp [h₃, fsOf]
      | some es₁ =>
        simp only [h₃]
        cases h₄ : setE es₁ dst n' with
        | none => simp [h₄, fsOf]
        | some es₂ =>
          simp only [h₄, fsOf]
          constructor
          · intro q hq1 hq2
            have hq1' : ¬ pfx q dst.dropLast := fun hc =>
              hq1 (pfx_of_pfx_dropLast hc)
            rw [lookupE_setE_frame h₄ hq1 hq2, lookupE_ensureDirE_frame h₃ hq1']
          · intro q hq hch
            exact dirChain_setE_frame h₄ hq (dirChain_ensureDirE_frame h₃ hch)

theorem finishCopy_effects (es : EntryList) (m : Mapping) :
    (∀ q, ¬ pfx q m.target → ¬ pfx m.target q →
      lookupE (fsOf (finishCopy es m)) q = lookupE es q) ∧
    (∀ q, ¬ pfx m.target q → dirChain es q = true →
      dirChain (fsOf (finishCopy es m)) q = true) := by
  unfold finishCopy ensureTargetParent
  cases h₁ : ensureDirE es m.target.dropLast with
  | none => simp [fsOf]
  | some es₁ =>
    have hcopy := copyFileOrDir_effects es₁ m.source m.target
    by_cases hpe : fileExists es m.target.dropLast = true <;>
      simp only [hpe, if_true, Bool.false_eq_true, if_false, reduceIte] <;>
      (constructor
       · intro q hq1 hq2
         have hq1' : ¬ pfx q m.target.dropLast := fun hc =>
           hq1 (pfx_of_pfx_dropLast hc)
         rw [hcopy.1 q hq1 hq2, lookupE_ensureDirE_frame h₁ hq1']
       · intro q hq hch
         exact hcopy.2 q hq (dirChain_ensureDirE_frame h₁ hch))

theorem applyCopyMapping_effects (es : EntryList) (m : Mapping) (allow : Bool) :
    (∀ q, ¬ pfx q m.target → ¬ pfx m.target q →
      lookupE (fsOf (applyCopyMapping es m allow)) q = lookupE es q) ∧
    (∀ q, ¬ pfx m.target q → dirChain es q = true →
      dirChain (fsOf (applyCopyMapping es m allow)) q = true) := by
  have hrem : ∀ es' : EntryList,
      (∀ q, ¬ pfx q m.target → ¬ pfx m.target q →
        lookupE (fsOf (finishCopy (removeE es' m.target) m)) q = lookupE es' q) ∧
      (∀ q, ¬ pfx m.target q → dirChain es' q = true →
        dirChain (fsOf (finishCopy (removeE es' m.target) m)) q = true) := by
    intro es'
    have hfin := finishCopy_effects (removeE es' m.target) m
    constructor
    · intro q hq1 hq2
      rw [hfin.1 q hq1 hq2, lookupE_removeE_frame es' m.target hq1 hq2]
    · intro q hq hch
      exact hfin.2 q hq (dirChain_removeE_frame hq hch)
  unfold applyCopyMapping
  cases h₁ : lookupE es m.source with
  | none => simp [fsOf]
  | some srcNode =>
    dsimp only
    cases h₂ : getTargetInfo es m.target with
    | none =>
      cases srcNode with
      | file c => exact finishCopy_effects es m
      | symlink t => exact finishCopy_effects es m
      | dir d => exact finishCopy_effects es m
    | some info =>
      have hrd : ∀ es' : EntryList,
          (∀ q, ¬ pfx q m.target → ¬ pfx m.target q →
            lookupE (fsOf (match removeDirectory es' m.target allow with
              | .error e => .err (.raw e) es'
              | .ok (es₂, removed) =>
                if removed then finishCopy es₂ m
                else .err (.agent ("Refusing to replace non-empty directory: " ++
                  pathStr m.target) .filesystem) es₂)) q = lookupE es' q) ∧
          (∀ q, ¬ pfx m.target q → dirChain es' q = true →
            dirChain (fsOf (match removeDirectory es' m.target allow with
              | .error e => .err (.raw e) es'
              | .ok (es₂, removed) =>
                if removed then finishCopy es₂ m
                else .err (.agent ("Refusing to replace non-empty directory: " ++
                  pathStr m.target) .filesystem) es₂)) q = true) := by
        intro es'
        unfold removeDirectory removeEmptyDirectory
        cases hallow : allow with
        | true =>
          simp only [Bool.not_true, Bool.false_eq_true, if_false, reduceIte, if_true]
          exact hrem es'
        | false =>
          simp only [Bool.not_false, if_true, reduceIte]
          cases h₃ : lookupE es' m.target with
          | none => simp [fsOf]
          | some nd =>
            cases nd with
            | file c => simp [fsOf]
            | symlink t => simp [fsOf]
            | dir d =>
              cases d with
              | nil =>
                dsimp only
                exact hrem es'
              | cons a b c => simp [fsOf]
      cases srcNode with
      | dir d =>
        dsimp only
        cases hinfo : info.isDirectory with
        | true =>
          simp only [hinfo, Bool.true_eq_false, if_false, reduceIte, if_true]
          exact hrd es
        | false =>
          simp only [hinfo, Bool.false_eq_true, if_false, reduceIte, if_true]
          exact hrem es
      | file c =>
        dsimp only
        cases hinfo : info.isDirectory with
        | true =>
          simp only [hinfo, if_true, reduceIte]
          exact hrd es
        | false =>
          simp only [hinfo, Bool.false_eq_true, if_false, reduceIte]
          exact hrem es
      | symlink t =>
        dsimp only
        cases hinfo : info.isDirectory with
        | true =>
          simp only [hinfo, if_true, reduceIte]
          exact hrd es
        | false =>
          simp only [hinfo, Bool.false_eq_true, if_false, reduceIte]
          exact hrem es

theorem tryLink_effects (sOk : Bool) (es : EntryList) (m : Mapping)
    (allow : Bool) :
    (∀ q, ¬ pfx q m.target → ¬ pfx m.target q →
      lookupE (fsOf (tryLink sOk es m allow)) q = lookupE es q) ∧
    (∀ q, ¬ pfx m.target q → dirChain es q = true →
      dirChain (fsOf (tryLink sOk es m allow)) q = true) := by
  have hlink : ∀ es' : EntryList,
      (∀ q, ¬ pfx q m.target → ¬ pfx m.target q →
        lookupE (fsOf (match symlinkOp sOk es' m.source m.target with
          | .error msg => FsRes.err (.raw msg) es'
          | .ok es₂ => FsRes.ok () es₂)) q = lookupE es' q) ∧
      (∀ q, ¬ pfx m.target q → dirChain es' q = true →
        dirChain (fsOf (match symlinkOp sOk es' m.source m.target with
          | .error msg => FsRes.err (.raw msg) es'
          | .ok es₂ => FsRes.ok () es₂)) q = true) := by
    intro es'
    unfold symlinkOp
    cases hok : sOk with
    | false => simp [fsOf]
    | true =>
      simp only [Bool.not_true, Bool.false_eq_true, if_false, reduceIte]
      by_cases hex : (lookupE es' m.target).isSome
      · simp [hex, fsOf]
      · simp only [hex, Bool.false_eq_true, if_false, reduceIte]
        cases hset : setE es' m.target (.symlink m.source) with
        | none => simp [fsOf]
        | some es₂ =>
          simp only [fsOf]
          exact ⟨fun q hq1 hq2 => lookupE_setE_frame hset hq1 hq2,
            fun q hq hch => dirChain_setE_frame hset hq hch⟩
  have hlinkR : ∀ es₀ : EntryList,
      (∀ q, ¬ pfx q m.target → ¬ pfx m.target q →
        lookupE (fsOf (match symlinkOp sOk (removeE es₀ m.target) m.source m.target with
          | .error msg => FsRes.err (.raw msg) (removeE es₀ m.target)
          | .ok es₂ => FsRes.ok () es₂)) q = lookupE es₀ q) ∧
      (∀ q, ¬ pfx m.target q → dirChain es₀ q = true →
        dirChain (fsOf (match symlinkOp sOk (removeE es₀ m.target) m.source m.target with
          | .error msg => FsRes.err (.raw msg) (removeE es₀ m.target)
          | .ok es₂ => FsRes.ok () es₂)) q = true) := by
    intro es₀
    have h := hlink (removeE es₀ m.target)
    exact ⟨fun q hq1 hq2 => by
        rw [h.1 q hq1 hq2, lookupE_removeE_frame es₀ m.target hq1 hq2],
      fun q hq hch => h.2 q hq (dirChain_removeE_frame hq hch)⟩
  unfold tryLink
  cases h₁ : lookupE es m.source with
  | none => simp [fsOf]
  | some srcNode =>
    dsimp only
    cases h₂ : lookupE es m.target with
    | none =>
      simp only [getTargetInfo, h₂]
      exact hlink es
    | some node =>
      cases node with
      | symlink t =>
        simp only [getTargetInfo, h₂]
        by_cases ht : t = m.source
        · subst ht
          simp only [if_pos rfl, reduceIte]
          simp [fsOf]
        · simp only [Option.some.injEq, ht, reduceIte]
          exact hlinkR es
      | file c =>
        simp only [getTargetInfo, h₂, Bool.false_eq_true, reduceIte]
        exact hlinkR es
      | dir d =>
        simp only [getTargetInfo, h₂, Bool.false_eq_true, reduceIte]
        unfold removeDirectory removeEmptyDirectory
        cases hallow : allow with
        | true =>
          simp only [Bool.not_true, Bool.false_eq_true, if_false, reduceIte]
          exact hlinkR es
        | false =>
          simp only [Bool.not_false, if_true, reduceIte, h₂]
          cases d with
          | nil =>
            dsimp only
            exact hlinkR es
          | cons a b c => simp [fsOf]

theorem applyMapping_effects (sOk : Bool) (es : EntryList) (m : Mapping)
    (ws : List String) (allow : Bool) :
    (∀ q, ¬ pfx q m.target → ¬ pfx m.target q →
      lookupE (fsOf (applyMapping sOk es m ws allow)) q = lookupE es q) ∧
    (∀ q, ¬ pfx m.target q → dirChain es q = true →
      dirChain (fsOf (applyMapping sOk es m ws allow)) q = true) := by
  unfold applyMapping
  by_cases hmode : m.mode = .copy
  · simp only [hmode, if_pos rfl, reduceIte]
    have h := applyCopyMapping_effects es m allow
    cases hcp : applyCopyMapping es m allow with
    | ok u es' =>
      rw [hcp] at h
      simpa [fsOf] using h
    | err e es' =>
      rw [hcp] at h
      simpa [fsOf] using h
  · simp only [hmode, if_neg, Bool.false_eq_true, if_false, reduceIte]
    cases hp : ensureTargetParent es m.target.dropLast m.target (some ws) with
    | err e es₁ =>
      have : es₁ = es := by
        unfold ensureTargetParent at hp
        cases he : ensureDirE es m.target.dropLast with
        | none => rw [he] at hp; cases hp; rfl
        | some es₂ =>
          rw [he] at hp
          dsimp only at hp
          split at hp <;> cases hp
      subst this
      simp [fsOf]
    | ok ws₁ es₁ =>
      have hens : ensureDirE es m.target.dropLast = some es₁ := by
        unfold ensureTargetParent at hp
        cases he : ensureDirE es m.target.dropLast with
        | none => rw [he] at hp; cases hp
        | some es₂ =>
          rw [he] at hp
          dsimp only at hp
          split at hp <;> (cases hp; rfl)
      have hefr : ∀ q, ¬ pfx q m.target → lookupE es₁ q = lookupE es q :=
        fun q hq => lookupE_ensureDirE_frame hens
          (fun hc => hq (pfx_of_pfx_dropLast hc))
      have hech : ∀ q, dirChain es q = true → dirChain es₁ q = true :=
        fun q hch => dirChain_ensureDirE_frame hens hch
      dsimp only
      have htl := tryLink_effects sOk es₁ m allow
      cases htry : tryLink sOk es₁ m allow with
      | ok u es₂ =>
        rw [htry] at htl
        simp only [fsOf] at htl
        dsimp only [fsOf]
        refine ⟨fun q hq1 hq2 => ?_, fun q hq hch => ?_⟩
        · rw [htl.1 q hq1 hq2, hefr q hq1]
        · exact htl.2 q hq (hech q hch)
      | err e es₂ =>
        rw [htry] at htl
        simp only [fsOf] at htl
        cases e with
        | agent msg code =>
          dsimp only [fsOf]
          refine ⟨fun q hq1 hq2 => ?_, fun q hq hch => ?_⟩
          · rw [htl.1 q hq1 hq2, hefr q hq1]
          · exact htl.2 q hq (hech q hch)
        | raw msg =>
          dsimp only
          have hcp := applyCopyMapping_effects es₂ m allow
          cases hcpr : applyCopyMapping es₂ m allow with
          | ok u₂ es₃ =>
            rw [hcpr] at hcp
            simp only [fsOf] at hcp
            dsimp only [fsOf]
            refine ⟨fun q hq1 hq2 => ?_, fun q hq hch => ?_⟩
            · rw [hcp.1 q hq1 hq2, htl.1 q hq1 hq2, hefr q hq1]
            · exact hcp.2 q hq (htl.2 q hq (hech q hch))
          | err e₂ es₃ =>
            rw [hcpr] at hcp
            simp only [fsOf] at hcp
            dsimp only [fsOf]
            refine ⟨fun q hq1 hq2 => ?_, fun q hq hch => ?_⟩
            · rw [hcp.1 q hq1 hq2, htl.1 q hq1 hq2, hefr q hq1]
            · exact hcp.2 q hq (htl.2 q hq (hech q hch))

/-! ## Copy fidelity: a recursive copy of a plain subtree reproduces the
node exactly. -/

theorem freshE_nil_right (es : EntryList) : freshE es .nil = true := by
  induction es using EntryList.inductionOn with
  | nil => rfl
  | cons y n rest ih => simp [freshE, lookupA, ih]

theorem appendE_cons_left (x : String) (n : FNode) (r ys : EntryList) :
    appendE (.cons x n r) ys = .cons x n (appendE r ys) := rfl

theorem appendE_nil_left (ys : EntryList) : appendE .nil ys = ys := rfl

theorem appendE_assoc (a b c : EntryList) :
    appendE (appendE a b) c = appendE a (appendE b c) := by
  induction a using EntryList.inductionOn with
  | nil => rfl
  | cons y n rest ih => simp [appendE, ih]

theorem appendE_nil_right (es : EntryList) : appendE es .nil = es := by
  induction es using EntryList.inductionOn with
  | nil => rfl
  | cons y n rest ih => simp [appendE, ih]

theorem setA_fresh {old : EntryList} {x : String} (h : lookupA old x = none)
    (v : FNode) : setA old x v = appendE old (.cons x v .nil) := by
  induction old using EntryList.inductionOn with
  | nil => rfl
  | cons y n rest ih =>
    by_cases hy : y = x
    · subst hy
      simp [lookupA] at h
    · simp only [lookupA, hy, if_false, reduceIte] at h
      simp [setA, appendE, hy, ih h]

theorem freshE_setA {r : EntryList} : ∀ {old : EntryList} {x : String}
    {v : FNode}, freshE r old = true → lookupA r x = none →
    freshE r (setA old x v) = true := by
  induction r using EntryList.inductionOn with
  | nil => intro old x v _ _; rfl
  | cons y n rest ih =>
    intro old x v hfresh hx
    simp only [lookupA] at hx
    by_cases hy : y = x
    · simp [hy] at hx
    · rw [if_neg hy] at hx
      simp only [freshE, Bool.and_eq_true] at hfresh ⊢
      exact ⟨by rw [lookupA_setA_ne _ hy]; exact hfresh.1, ih hfresh.2 hx⟩

mutual

theorem copyInto_id (root : EntryList) : ∀ (n : FNode), plainN n = true →
    copyInto root none n = .ok n
  | .file c, _ => rfl
  | .symlink t, h => by simp [plainN] at h
  | .dir es, h => by
    have hes := copyIntoEntries_fresh root es .nil (by simpa [plainN] using h)
      (freshE_nil_right es)
    show (copyIntoEntries root .nil es).map FNode.dir = .ok (.dir es)
    rw [hes]
    rfl

theorem copyIntoEntries_fresh (root : EntryList) : ∀ (src old : EntryList),
    plainE src = true → freshE src old = true →
    copyIntoEntries root old src = .ok (appendE old src)
  | .nil, old, _, _ => by
    show Except.ok old = .ok (appendE old .nil)
    rw [appendE_nil_right]
  | .cons x n rest, old, hplain, hfresh => by
    simp only [plainE, Bool.and_eq_true] at hplain
    simp only [freshE, Bool.and_eq_true] at hfresh
    have hxo : lookupA old x = none := by
      cases hh : lookupA old x
      · rfl
      · rw [hh] at hfresh; simp at hfresh
    have hxr : lookupA rest x = none := by
      cases hh : lookupA rest x
      · rfl
      · rw [hh] at hplain; simp at hplain
    show (do
      let n' ← copyInto root (lookupA old x) n
      copyIntoEntries root (setA old x n') rest) = .ok (appendE old (.cons x n rest))
    rw [hxo, copyInto_id root n hplain.1.2]
    simp only [bind, Except.bind]
    rw [copyIntoEntries_fresh root rest (setA old x n) hplain.2
      (freshE_setA hfresh.2 hxr)]
    rw [setA_fresh hxo, appendE_assoc]
    rfl

end

theorem copyFileOrDir_fresh {es : EntryList} {src dst : Path} {n : FNode}
    (hsrc : lookupE es src = some n) (hplain : plainN n = true)
    (hfresh : lookupE es dst = none) (hchain : dirChain es dst = true) :
    ∃ es', copyFileOrDir es src dst = .ok () es' ∧
      lookupE es' dst = some n := by
  unfold copyFileOrDir
  rw [hsrc]
  dsimp only
  rw [hfresh, copyInto_id es n hplain]
  dsimp only
  rw [ensureDirE_of_dirChain hchain]
  dsimp only
  have := setE_isSome_of_dirChain n hchain
  cases hset : setE es dst n with
  | none => rw [hset] at this; simp at this
  | some es' => exact ⟨es', rfl, lookupE_setE_self hset⟩

/-- A backup destination path is never the empty (root) path. -/
theorem backupDest_ne_nil (sourceRoot : Path) (now : String) (target : Path) :
    backupDest sourceRoot now target ≠ [] := by
  unfold backupDest
  intro h
  have := congrArg List.length h
  simp at this

theorem backupTarget_ok {es : EntryList} {target sourceRoot : Path}
    {now : String} {n : FNode} {es₁ : EntryList}
    (htgt : lookupE es target = some n) (hplain : plainN n = true)
    (hfresh : lookupE es (backupDest sourceRoot now target) = none)
    (hens : ensureDirE es (backupDest sourceRoot now target).dropLast = some es₁)
    (hsep : ¬ pfx target (backupDest sourceRoot now target)) :
    ∃ es', backupTarget es target sourceRoot now = .ok () es' ∧
      lookupE es' (backupDest sourceRoot now target) = some n := by
  have hdne := backupDest_ne_nil sourceRoot now target
  have htgt₁ : lookupE es₁ target = some n := by
    rw [lookupE_ensureDirE_frame hens
      (fun hc => hsep (pfx_of_pfx_dropLast hc))]
    exact htgt
  have hfresh₁ : lookupE es₁ (backupDest sourceRoot now target) = none := by
    rw [lookupE_ensureDirE_frame hens (not_pfx_dropLast_self hdne)]
    exact hfresh
  have hchain₁ : dirChain es₁ (backupDest sourceRoot now target) = true := by
    have := dirChain_append_of_ensure hens
      ((backupDest sourceRoot now target).getLast hdne)
    rwa [List.dropLast_append_getLast hdne] at this
  obtain ⟨es', hcp, hlook⟩ :=
    copyFileOrDir_fresh htgt₁ hplain hfresh₁ hchain₁
  refine ⟨es', ?_, hlook⟩
  unfold backupTarget
  dsimp only
  rw [hens]
  dsimp only
  exact hcp

/-- C5: when the backup conflict decision applies to a pre-existing
unmanaged target outside dry-run, a byte-identical copy of the target's
node is created at
`<sourceRoot>/backup/<timestamp with : and . replaced by ->/<target>`
before the target is overwritten, and it is still there after the
mapping has been applied (whether the apply succeeded or not). -/
theorem C5_backup_makes_identical_copy (opts : SyncOptions)
    (ex : Option SyncState) (st : RunSt) (m : Mapping) (n : FNode)
    (hdry : opts.dryRun = false)
    (hforce : opts.force = false)
    (hman : isManaged m.target ex = false)
    (hsrc : (lookupE st.w.fs m.source).isSome = true)
    (htgt : lookupE st.w.fs m.target = some n)
    (hplain : plainN n = true)
    (hdec : (resolveConflictPolicy st.cs st.w.isTTY st.w.stdin).1.action = .backup)
    (hfresh : lookupE st.w.fs (backupDest opts.sourceRoot st.w.now m.target) = none)
    (hens : (ensureDirE st.w.fs
      (backupDest opts.sourceRoot st.w.now m.target).dropLast).isSome = true)
    (hsep1 : ¬ pfx m.target (backupDest opts.sourceRoot st.w.now m.target))
    (hsep2 : ¬ pfx (backupDest opts.sourceRoot st.w.now m.target) m.target) :
    lookupE (runOutW (syncStep opts ex st m)).fs
      (backupDest opts.sourceRoot st.w.now m.target) = some n := by
  obtain ⟨es₁, hens'⟩ : ∃ es₁, ensureDirE st.w.fs
      (backupDest opts.sourceRoot st.w.now m.target).dropLast = some es₁ := by
    cases hh : ensureDirE st.w.fs
        (backupDest opts.sourceRoot st.w.now m.target).dropLast with
    | none => rw [hh] at hens; simp at hens
    | some es₁ => exact ⟨es₁, rfl⟩
  obtain ⟨es', hbk, hlook⟩ := backupTarget_ok htgt hplain hfresh hens' hsep1
  have hfe_src : fileExists st.w.fs m.source = true := by
    unfold fileExists
    rw [hsrc]
    simp
  have hfe_tgt : fileExists st.w.fs m.target = true := by
    unfold fileExists
    rw [htgt]
    simp
  unfold syncStep
  dsimp only
  simp only [hfe_src, hfe_tgt, hforce, hman, hdec, Bool.not_false, Bool.not_true,
    Bool.false_eq_true, if_false, if_true, Bool.and_true, Bool.true_and,
    reduceCtorEq, reduceIte, hdry]
  rw [hbk]
  unfold applyPhase
  simp only [hdry, Bool.false_eq_true, if_false, reduceIte]
  have heff := applyMapping_effects st.w.symlinkOk es' m st.warnings true
  cases happ : applyMapping st.w.symlinkOk es' m st.warnings true with
  | ok ws' fs' =>
    rw [happ] at heff
    simp only [fsOf] at heff
    simp only [runOutW]
    rw [heff.1 _ hsep2 hsep1]
    exact hlook
  | err e fs' =>
    rw [happ] at heff
    simp only [fsOf] at heff
    cases e with
    | agent msg code =>
      simp only [runOutW]
      rw [heff.1 _ hsep2 hsep1]
      exact hlook
    | raw msg =>
      simp only [runOutW]
      rw [heff.1 _ hsep2 hsep1]
      exact hlook

/-- Witness for C5: backing up the pre-existing `/home/AGENTS.md` (file
"old") lands it, byte-identical, at
`/srcroot/backup/2026-10-11T00-00-00-000Z/home/AGENTS.md`. -/
theorem C5_backup_makes_identical_copy_witness :
    (resolveConflictPolicy (⟨some .backup, true⟩ : ConflictState)
      exWorldTgt.isTTY exWorldTgt.stdin).1.action = .backup ∧
    backupDest ["srcroot"] exWorldTgt.now ["home", "AGENTS.md"] =
      ["srcroot", "backup", "2026-10-11T00-00-00-000Z", "home", "AGENTS.md"] ∧
    lookupE (runOutW (syncStep
        { exOpts with force := false, conflictPolicy := some .backup } none
        ⟨exWorldTgt, ⟨some .backup, true⟩, [], [], []⟩
        ⟨"codex", ["srcroot", "agent.md"], ["home", "AGENTS.md"], .link⟩)).fs
      (backupDest ["srcroot"] exWorldTgt.now ["home", "AGENTS.md"]) =
      some (.file "old") :=
  ⟨by decide, by decide,
    C5_backup_makes_identical_copy
      { exOpts with force := false, conflictPolicy := some .backup } none
      ⟨exWorldTgt, ⟨some .backup, true⟩, [], [], []⟩
      ⟨"codex", ["srcroot", "agent.md"], ["home", "AGENTS.md"], .link⟩
      (.file "old") rfl rfl (by decide) (by decide) (by decide) (by decide)
      (by decide) (by decide) (by decide) (by decide) (by decide)⟩

/-! ## The link-mode fast path (claim C3) -/

/-- Along an existing full parent chain, the parent path itself passes
the `fileExists` probe (the root path trivially so). -/
theorem fileExists_of_dirChain {p : Path} {es : EntryList}
    (h : dirChain es p = true) : fileExists es p.dropLast = true := by
  induction p generalizing es with
  | nil => simp [dirChain] at h
  | cons x rest ih =>
    cases rest with
    | nil => rfl
    | cons y rest' =>
      simp only [dirChain] at h
      cases hx : lookupA es x with
      | none => rw [hx] at h; simp at h
      | some n =>
        cases n with
        | file c => rw [hx] at h; simp at h
        | symlink t => rw [hx] at h; simp at h
        | dir es₁ =>
          rw [hx] at h
          cases rest' with
          | nil => simp [fileExists, lookupE, hx]
          | cons z r2 =>
            have hfe := ih h
            simp only [List.dropLast_cons₂] at hfe ⊢
            simp only [fileExists, List.isEmpty_cons, Bool.false_or] at hfe ⊢
            simp only [lookupE, hx]
            exact hfe

/-- The "already points at source" fast path of one loop iteration
(sync.ts:299-303 under sync.ts:108-121): outside dry-run, a link-mode
mapping whose managed target is already a symlink at the source changes
nothing -- not the filesystem, not the warnings, not the conflict state
-- yet the mapping is still appended to `updated` (sync.ts:121). -/
theorem syncStep_fastpath (opts : SyncOptions) (ex : Option SyncState)
    (st : RunSt) (m : Mapping)
    (hdry : opts.dryRun = false)
    (hmode : m.mode = .link)
    (hsrc : (lookupE st.w.fs m.source).isSome = true)
    (htgt : lookupE st.w.fs m.target = some (.symlink m.source))
    (hman : isManaged m.target ex = true)
    (hchain : dirChain st.w.fs m.target = true) :
    syncStep opts ex st m = .cont { st with updated := st.updated ++ [m] } := by
  have hfe_src : fileExists st.w.fs m.source = true := by
    unfold fileExists
    rw [hsrc]
    simp
  have hens := ensureDirE_of_dirChain hchain
  have hfep := fileExists_of_dirChain hchain
  obtain ⟨ns, hns⟩ := Option.isSome_iff_exists.mp hsrc
  have hETP : ensureTargetParent st.w.fs m.target.dropLast m.target
      (some st.warnings) = .ok (some st.warnings) st.w.fs := by
    unfold ensureTargetParent
    dsimp only
    rw [hens]
    dsimp only
    simp only [hfep, reduceIte]
  have hGTI : getTargetInfo st.w.fs m.target = some ⟨false, true, some m.source⟩ := by
    unfold getTargetInfo
    rw [htgt]
  have hTL : ∀ allow, tryLink st.w.symlinkOk st.w.fs m allow = .ok () st.w.fs := by
    intro allow
    unfold tryLink
    rw [hns]
    dsimp only
    rw [hGTI]
    dsimp only
    simp
  have hAM : ∀ allow, applyMapping st.w.symlinkOk st.w.fs m st.warnings allow =
      .ok st.warnings st.w.fs := by
    intro allow
    unfold applyMapping
    simp only [hmode, reduceCtorEq, reduceIte]
    rw [hETP]
    dsimp only [Option.getD]
    rw [hTL allow]
  unfold syncStep
  dsimp only
  simp only [hfe_src, hman, Bool.not_true, Bool.and_false, Bool.false_eq_true,
    reduceIte, Bool.or_true]
  unfold applyPhase
  simp only [hdry, Bool.false_eq_true, reduceIte]
  rw [hAM]

/-- A whole run of fast-path iterations: the loop state is unchanged
except that every mapping of the list lands in `updated`. -/
theorem runLoop_fastpath (opts : SyncOptions) (ex : Option SyncState)
    (hdry : opts.dryRun = false) :
    ∀ (ms : List Mapping) (st : RunSt),
      (∀ m ∈ ms, m.mode = .link ∧
        (lookupE st.w.fs m.source).isSome = true ∧
        lookupE st.w.fs m.target = some (.symlink m.source) ∧
        isManaged m.target ex = true ∧
        dirChain st.w.fs m.target = true) →
      runLoop opts ex st ms = .cont { st with updated := st.updated ++ ms } := by
  intro ms
  induction ms with
  | nil =>
    intro st _
    simp [runLoop_nil]
  | cons m rest ih =>
    intro st h
    obtain ⟨hmode, hsrc, htgt, hman, hchain⟩ := h m (List.mem_cons_self _ _)
    rw [runLoop_cons,
      syncStep_fastpath opts ex st m hdry hmode hsrc htgt hman hchain]
    dsimp only
    rw [ih { st with updated := st.updated ++ [m] }
      (fun m' hm' => h m' (List.mem_cons_of_mem _ hm'))]
    simp

/-- The `buildState` fold succeeds as soon as every updated mapping's
target still exists (each `buildRecord` re-probe answers). -/
theorem buildStateFiles_ok_of_each (es : EntryList) :
    ∀ (ms : List Mapping) (files : List (Path × SyncRecord)),
      (∀ m ∈ ms, (lookupE es m.target).isSome = true) →
      ∃ files', buildStateFiles es files ms = .ok files' := by
  intro ms
  induction ms with
  | nil =>
    intro files _
    exact ⟨files, rfl⟩
  | cons m rest ih =>
    intro files h
    obtain ⟨n, hn⟩ := Option.isSome_iff_exists.mp (h m (List.mem_cons_self _ _))
    obtain ⟨r, hr⟩ : ∃ r, buildRecord es m = .ok r := by
      unfold buildRecord
      rw [hn]
      cases n with
      | file c => exact ⟨_, rfl⟩
      | symlink t => exact ⟨_, rfl⟩
      | dir d => exact ⟨_, rfl⟩
    obtain ⟨files', hf⟩ := ih (setKey files m.target r)
      (fun m' hm' => h m' (List.mem_cons_of_mem _ hm'))
    refine ⟨files', ?_⟩
    unfold buildStateFiles
    rw [hr]
    simpa [bind, Except.bind] using hf

/-- A second link-mode run over unchanged inputs -- every target
already a symlink at its source and managed by the snapshot the first
run wrote -- succeeds while leaving the filesystem exactly as it was,
yet reports every mapping as updated: the already-points-at-source fast
path is still pushed onto `updated` (sync.ts:121). -/
theorem syncConfigs_link_fastpath_run (opts : SyncOptions)
    (pms : List PreMapping) (w₀ : World)
    (hdry : opts.dryRun = false)
    (hmode : resolveSyncMode opts.linkMode w₀.symlinkOk = .link)
    (hall : ∀ pm ∈ pms,
      (lookupE w₀.fs pm.source).isSome = true ∧
      lookupE w₀.fs pm.target = some (.symlink pm.source) ∧
      isManaged pm.target (readState w₀) = true ∧
      dirChain w₀.fs pm.target = true) :
    ∃ (res : SyncResult) (w₁ : World),
      syncConfigs opts pms w₀ = .ok res w₁ ∧
      w₁.fs = w₀.fs ∧
      res.updated = pms.map (fun pm =>
        Mapping.mk pm.agent pm.source pm.target .link) ∧
      res.skipped = [] := by
  have hrl := runLoop_fastpath opts (readState w₀) hdry
    (pms.map (fun pm => Mapping.mk pm.agent pm.source pm.target .link))
    ⟨w₀, ⟨opts.conflictPolicy, true⟩, [], [], []⟩
    (by
      intro m hm
      obtain ⟨pm, hpm, rfl⟩ := List.mem_map.mp hm
      obtain ⟨h1, h2, h3, h4⟩ := hall pm hpm
      exact ⟨rfl, h1, h2, h3, h4⟩)
  have hexist : ∀ m ∈ pms.map (fun pm =>
      Mapping.mk pm.agent pm.source pm.target SyncMode.link),
      (lookupE w₀.fs m.target).isSome = true := by
    intro m hm
    obtain ⟨pm, hpm, rfl⟩ := List.mem_map.mp hm
    obtain ⟨-, h2, -, -⟩ := hall pm hpm
    rw [h2]
    rfl
  obtain ⟨ns, hbs⟩ : ∃ ns, buildState opts.scopeMode opts.projectRoot
      (pms.map (fun pm => Mapping.mk pm.agent pm.source pm.target .link))
      (readState w₀) w₀.fs w₀.now = .ok ns := by
    cases hS : readState w₀ with
    | none =>
      obtain ⟨files', hbf⟩ := buildStateFiles_ok_of_each w₀.fs
        (pms.map (fun pm => Mapping.mk pm.agent pm.source pm.target .link))
        [] hexist
      refine ⟨⟨1, w₀.now, opts.scopeMode, opts.projectRoot, files'⟩, ?_⟩
      unfold buildState
      dsimp only
      rw [hbf]
      rfl
    | some s =>
      obtain ⟨files', hbf⟩ := buildStateFiles_ok_of_each w₀.fs
        (pms.map (fun pm => Mapping.mk pm.agent pm.source pm.target .link))
        s.files hexist
      refine ⟨⟨1, w₀.now, opts.scopeMode, opts.projectRoot, files'⟩, ?_⟩
      unfold buildState
      dsimp only
      rw [hbf]
      rfl
  refine ⟨⟨pms.map (fun pm => Mapping.mk pm.agent pm.source pm.target .link),
    pms.map (fun pm => Mapping.mk pm.agent pm.source pm.target .link), [], []⟩,
    writeState w₀ ns, ?_, rfl, rfl, rfl⟩
  unfold syncConfigs
  dsimp only
  rw [hmode, hrl]
  dsimp only
  simp only [hdry, Bool.false_eq_true, reduceIte, List.nil_append]
  rw [hbs]

/-- A `true` answer of the regular-file probe names a witness content. -/
theorem exists_of_isFileAt {es : EntryList} {p : Path}
    (h : isFileAt es p = true) : ∃ c, lookupE es p = some (.file c) := by
  unfold isFileAt at h
  cases hl : lookupE es p with
  | none => rw [hl] at h; simp at h
  | some n =>
    cases n with
    | file c => exact ⟨c, rfl⟩
    | symlink t => rw [hl] at h; simp at h
    | dir d => rw [hl] at h; simp at h

/-- One copy-mode iteration on a managed regular-file target whose
source is a regular file (the state a previous copy run leaves behind):
the step succeeds, re-copies the source's bytes over the target, counts
the mapping as updated, and leaves every target-unrelated path and
directory chain alone. -/
theorem syncStep_copy_refresh (opts : SyncOptions) (ex : Option SyncState)
    (st : RunSt) (m : Mapping) (c d : String)
    (hdry : opts.dryRun = false)
    (hmode : m.mode = .copy)
    (hsrc : lookupE st.w.fs m.source = some (.file c))
    (htgt : lookupE st.w.fs m.target = some (.file d))
    (hman : isManaged m.target ex = true)
    (hchain : dirChain st.w.fs m.target = true)
    (hsep1 : ¬ pfx m.source m.target)
    (hsep2 : ¬ pfx m.target m.source) :
    ∃ fs', syncStep opts ex st m =
        .cont { st with w := { st.w with fs := fs' }
                        updated := st.updated ++ [m] } ∧
      lookupE fs' m.target = some (.file c) ∧
      (∀ q, ¬ pfx q m.target → ¬ pfx m.target q →
        lookupE fs' q = lookupE st.w.fs q) ∧
      (∀ q, ¬ pfx m.target q → dirChain st.w.fs q = true →
        dirChain fs' q = true) := by
  have hchain₁ := dirChain_removeE hchain
  have hsrc₁ : lookupE (removeE st.w.fs m.target) m.source = some (.file c) := by
    rw [lookupE_removeE_frame st.w.fs m.target hsep1 hsep2]
    exact hsrc
  have htgt₁ : lookupE (removeE st.w.fs m.target) m.target = none :=
    lookupE_removeE_self st.w.fs m.target
  obtain ⟨es₂, hcp, hlk⟩ := copyFileOrDir_fresh hsrc₁ rfl htgt₁ hchain₁
  have hETP : ensureTargetParent (removeE st.w.fs m.target) m.target.dropLast
      m.target none = .ok none (removeE st.w.fs m.target) := by
    unfold ensureTargetParent
    dsimp only
    rw [ensureDirE_of_dirChain hchain₁]
    dsimp only
    cases hfe : fileExists (removeE st.w.fs m.target) m.target.dropLast <;>
      simp [hfe, Option.map]
  have hfc : finishCopy (removeE st.w.fs m.target) m = .ok () es₂ := by
    unfold finishCopy
    rw [hETP]
    dsimp only
    exact hcp
  have hGTI : getTargetInfo st.w.fs m.target = some ⟨false, false, none⟩ := by
    unfold getTargetInfo
    rw [htgt]
  have hACM : ∀ allow, applyCopyMapping st.w.fs m allow = .ok () es₂ := by
    intro allow
    unfold applyCopyMapping
    rw [hsrc]
    dsimp only
    rw [hGTI]
    dsimp only
    exact hfc
  have hAM : ∀ allow, applyMapping st.w.symlinkOk st.w.fs m st.warnings allow =
      .ok st.warnings es₂ := by
    intro allow
    unfold applyMapping
    simp only [hmode, reduceIte]
    rw [hACM allow]
  have hfe_src : fileExists st.w.fs m.source = true := by
    unfold fileExists
    rw [hsrc]
    simp
  refine ⟨es₂, ?_, hlk, ?_, ?_⟩
  · unfold syncStep
    dsimp only
    simp only [hfe_src, hman, Bool.not_true, Bool.and_false, Bool.false_eq_true,
      reduceIte, Bool.or_true]
    unfold applyPhase
    simp only [hdry, Bool.false_eq_true, reduceIte]
    rw [hAM]
  · intro q hq1 hq2
    have heff :=
      (applyMapping_effects st.w.symlinkOk st.w.fs m st.warnings true).1 q hq1 hq2
    rw [hAM true] at heff
    simpa [fsOf] using heff
  · intro q hq hch
    have heff :=
      (applyMapping_effects st.w.symlinkOk st.w.fs m st.warnings true).2 q hq hch
    rw [hAM true] at heff
    simpa [fsOf] using heff

/-- A whole copy-mode run of refresh iterations over pairwise unrelated
mappings: the loop succeeds, every mapping lands in `updated` (none in
`skipped`), every target ends up holding its source's bytes, and every
path unrelated to all targets is untouched. -/
theorem runLoop_copy_refresh (opts : SyncOptions) (ex : Option SyncState)
    (hdry : opts.dryRun = false) :
    ∀ (ms : List Mapping) (st : RunSt),
      (∀ m ∈ ms, m.mode = .copy ∧
        (∃ c, lookupE st.w.fs m.source = some (.file c)) ∧
        (∃ d, lookupE st.w.fs m.target = some (.file d)) ∧
        isManaged m.target ex = true ∧
        dirChain st.w.fs m.target = true ∧
        ¬ pfx m.source m.target ∧ ¬ pfx m.target m.source) →
      List.Pairwise (fun m m' =>
        ¬ pfx m.target m'.target ∧ ¬ pfx m'.target m.target ∧
        ¬ pfx m.target m'.source ∧ ¬ pfx m'.source m.target) ms →
      ∃ st', runLoop opts ex st ms = .cont st' ∧
        st'.updated = st.updated ++ ms ∧
        st'.skipped = st.skipped ∧
        (∀ m ∈ ms, ∃ c, lookupE st.w.fs m.source = some (.file c) ∧
          lookupE st'.w.fs m.target = some (.file c)) ∧
        (∀ q, (∀ m ∈ ms, ¬ pfx q m.target ∧ ¬ pfx m.target q) →
          lookupE st'.w.fs q = lookupE st.w.fs q) := by
  intro ms
  induction ms with
  | nil =>
    intro st _ _
    exact ⟨st, rfl, by simp, rfl, by simp, fun q _ => rfl⟩
  | cons m rest ih =>
    intro st h hpw
    obtain ⟨hmode, ⟨c, hsrc⟩, ⟨d, htgt⟩, hman, hchain, hs1, hs2⟩ :=
      h m (List.mem_cons_self _ _)
    obtain ⟨fs', hstep, hlk, hframe, hchainNew⟩ :=
      syncStep_copy_refresh opts ex st m c d hdry hmode hsrc htgt hman hchain
        hs1 hs2
    rw [List.pairwise_cons] at hpw
    obtain ⟨hpwm, hpwrest⟩ := hpw
    obtain ⟨st', hloop, hupd, hskip, hcontent, hframeRest⟩ := ih
      { st with w := { st.w with fs := fs' }
                updated := st.updated ++ [m] }
      (by
        intro m' hm'
        obtain ⟨hmode', ⟨c', hsrc'⟩, ⟨d', htgt'⟩, hman', hchain', hs1', hs2'⟩ :=
          h m' (List.mem_cons_of_mem _ hm')
        obtain ⟨htt, htt', hts, hst⟩ := hpwm m' hm'
        refine ⟨hmode', ⟨c', ?_⟩, ⟨d', ?_⟩, hman', ?_, hs1', hs2'⟩
        · show lookupE fs' m'.source = some (.file c')
          rw [hframe m'.source hst hts]
          exact hsrc'
        · show lookupE fs' m'.target = some (.file d')
          rw [hframe m'.target htt' htt]
          exact htgt'
        · show dirChain fs' m'.target = true
          exact hchainNew m'.target htt hchain')
      hpwrest
    refine ⟨st', ?_, ?_, hskip, ?_, ?_⟩
    · rw [runLoop_cons, hstep]
      dsimp only
      exact hloop
    · rw [hupd]
      simp
    · intro m' hm'
      rcases List.mem_cons.mp hm' with rfl | hm''
      · refine ⟨c, hsrc, ?_⟩
        rw [hframeRest m'.target (fun m₂ hm₂ => ?_)]
        · exact hlk
        · obtain ⟨h1, h2, -, -⟩ := hpwm m₂ hm₂
          exact ⟨h1, h2⟩
      · obtain ⟨c', hcs, hct⟩ := hcontent m' hm''
        obtain ⟨htt, htt', hts, hst⟩ := hpwm m' hm''
        refine ⟨c', ?_, hct⟩
        rw [← hframe m'.source hst hts]
        exact hcs
    · intro q hq
      obtain ⟨hq1, hq2⟩ := hq m (List.mem_cons_self _ _)
      rw [hframeRest q (fun m₂ hm₂ => hq m₂ (List.mem_cons_of_mem _ hm₂))]
      exact hframe q hq1 hq2

/-- A second copy-mode run over unchanged inputs -- every target a
managed regular file left by the first copy run, sources regular files,
mappings pairwise unrelated -- succeeds, re-copies every source's bytes
onto its target, and reports every mapping as updated (none skipped). -/
theorem syncConfigs_copy_refresh_run (opts : SyncOptions)
    (pms : List PreMapping) (w₀ : World)
    (hdry : opts.dryRun = false)
    (hmode : resolveSyncMode opts.linkMode w₀.symlinkOk = .copy)
    (hall : ∀ pm ∈ pms,
      isFileAt w₀.fs pm.source = true ∧
      isFileAt w₀.fs pm.target = true ∧
      isManaged pm.target (readState w₀) = true ∧
      dirChain w₀.fs pm.target = true ∧
      ¬ pfx pm.source pm.target ∧ ¬ pfx pm.target pm.source)
    (hpw : List.Pairwise (fun pm pm' : PreMapping =>
      ¬ pfx pm.target pm'.target ∧ ¬ pfx pm'.target pm.target ∧
      ¬ pfx pm.target pm'.source ∧ ¬ pfx pm'.source pm.target) pms) :
    ∃ (res : SyncResult) (w₁ : World),
      syncConfigs opts pms w₀ = .ok res w₁ ∧
      res.updated = pms.map (fun pm =>
        Mapping.mk pm.agent pm.source pm.target .copy) ∧
      res.skipped = [] ∧
      (∀ pm ∈ pms, ∃ c, lookupE w₀.fs pm.source = some (.file c) ∧
        lookupE w₁.fs pm.target = some (.file c)) := by
  obtain ⟨st', hloop, hupd, hskip, hcontent, -⟩ :=
    runLoop_copy_refresh opts (readState w₀) hdry
      (pms.map (fun pm => Mapping.mk pm.agent pm.source pm.target .copy))
      ⟨w₀, ⟨opts.conflictPolicy, true⟩, [], [], []⟩
      (by
        intro m hm
        obtain ⟨pm, hpm, rfl⟩ := List.mem_map.mp hm
        obtain ⟨h1, h2, h3, h4, h5, h6⟩ := hall pm hpm
        obtain ⟨c, hc⟩ := exists_of_isFileAt h1
        obtain ⟨e, he⟩ := exists_of_isFileAt h2
        exact ⟨rfl, ⟨c, hc⟩, ⟨e, he⟩, h3, h4, h5, h6⟩)
      (by
        rw [List.pairwise_map]
        exact hpw.imp (fun hh => hh))
  have hupd' : st'.updated = pms.map (fun pm =>
      Mapping.mk pm.agent pm.source pm.target .copy) := by
    rw [hupd]
    simp
  have hexist : ∀ m ∈ st'.updated, (lookupE st'.w.fs m.target).isSome = true := by
    rw [hupd']
    intro m hm
    obtain ⟨c, -, hc⟩ := hcontent m hm
    rw [hc]
    rfl
  obtain ⟨ns, hbs⟩ : ∃ ns, buildState opts.scopeMode opts.projectRoot
      st'.updated (readState w₀) st'.w.fs st'.w.now = .ok ns := by
    cases hS : readState w₀ with
    | none =>
      obtain ⟨files', hbf⟩ :=
        buildStateFiles_ok_of_each st'.w.fs st'.updated [] hexist
      refine ⟨⟨1, st'.w.now, opts.scopeMode, opts.projectRoot, files'⟩, ?_⟩
      unfold buildState
      dsimp only
      rw [hbf]
      rfl
    | some s =>
      obtain ⟨files', hbf⟩ :=
        buildStateFiles_ok_of_each st'.w.fs st'.updated s.files hexist
      refine ⟨⟨1, st'.w.now, opts.scopeMode, opts.projectRoot, files'⟩, ?_⟩
      unfold buildState
      dsimp only
      rw [hbf]
      rfl
  refine ⟨⟨pms.map (fun pm => Mapping.mk pm.agent pm.source pm.target .copy),
    st'.updated, st'.skipped, st'.warnings⟩, writeState st'.w ns, ?_, hupd',
    hskip, ?_⟩
  · unfold syncConfigs
    dsimp only
    rw [hmode, hloop]
    dsimp only
    simp only [hdry, Bool.false_eq_true, reduceIte]
    rw [hbs]
  · intro pm hpm
    exact hcontent (Mapping.mk pm.agent pm.source pm.target .copy)
      (List.mem_map_of_mem _ hpm)

/-- C3 (amended): with identical inputs and no intervening external
change, a second run's `updated` report does not distinguish the modes.
(a) Link mode: every target is already a symlink at its source and
managed, so the run succeeds leaving the filesystem exactly as it was
-- yet it reports every mapping as updated, not zero, because the
already-points-at-source fast path is still pushed onto `updated` for
state-refresh purposes (sync.ts:121).  (b) Copy mode has no such fast
path: a second run re-copies every source's bytes onto its target and
likewise reports every mapping as updated, none skipped. -/
theorem C3_second_run_reports_all_updated :
    (∀ (opts : SyncOptions) (pms : List PreMapping) (w₀ : World),
      opts.dryRun = false →
      resolveSyncMode opts.linkMode w₀.symlinkOk = .link →
      (∀ pm ∈ pms,
        (lookupE w₀.fs pm.source).isSome = true ∧
        lookupE w₀.fs pm.target = some (.symlink pm.source) ∧
        isManaged pm.target (readState w₀) = true ∧
        dirChain w₀.fs pm.target = true) →
      ∃ (res : SyncResult) (w₁ : World),
        syncConfigs opts pms w₀ = .ok res w₁ ∧
        w₁.fs = w₀.fs ∧
        res.updated = pms.map (fun pm =>
          Mapping.mk pm.agent pm.source pm.target .link) ∧
        res.skipped = []) ∧
    (∀ (opts : SyncOptions) (pms : List PreMapping) (w₀ : World),
      opts.dryRun = false →
      resolveSyncMode opts.linkMode w₀.symlinkOk = .copy →
      (∀ pm ∈ pms,
        isFileAt w₀.fs pm.source = true ∧
        isFileAt w₀.fs pm.target = true ∧
        isManaged pm.target (readState w₀) = true ∧
        dirChain w₀.fs pm.target = true ∧
        ¬ pfx pm.source pm.target ∧ ¬ pfx pm.target pm.source) →
      List.Pairwise (fun pm pm' : PreMapping =>
        ¬ pfx pm.target pm'.target ∧ ¬ pfx pm'.target pm.target ∧
        ¬ pfx pm.target pm'.source ∧ ¬ pfx pm'.source pm.target) pms →
      ∃ (res : SyncResult) (w₁ : World),
        syncConfigs opts pms w₀ = .ok res w₁ ∧
        res.updated = pms.map (fun pm =>
          Mapping.mk pm.agent pm.source pm.target .copy) ∧
        res.skipped = [] ∧
        (∀ pm ∈ pms, ∃ c, lookupE w₀.fs pm.source = some (.file c) ∧
          lookupE w₁.fs pm.target = some (.file c))) :=
  ⟨fun opts pms w₀ hdry hmode hall =>
    syncConfigs_link_fastpath_run opts pms w₀ hdry hmode hall,
   fun opts pms w₀ hdry hmode hall hpw =>
    syncConfigs_copy_refresh_run opts pms w₀ hdry hmode hall hpw⟩

/-- Witness for the amended C3: over the worlds the first link-mode and
copy-mode runs of `exPm` leave behind, the second run of each mode
reports the one mapping as updated -- the link run without touching the
filesystem, the copy run rewriting the target with the source's
bytes. -/
theorem C3_second_run_reports_all_updated_witness :
    (∃ (res : SyncResult) (w₁ : World),
      syncConfigs exOpts [exPm] exWorldSecond = .ok res w₁ ∧
      w₁.fs = exWorldSecond.fs ∧
      res.updated = [exPm].map (fun pm =>
        Mapping.mk pm.agent pm.source pm.target .link) ∧
      res.skipped = []) ∧
    (∃ (res : SyncResult) (w₁ : World),
      syncConfigs { exOpts with linkMode := .copy } [exPm] exWorldSecondCopy =
        .ok res w₁ ∧
      res.updated = [exPm].map (fun pm =>
        Mapping.mk pm.agent pm.source pm.target .copy) ∧
      res.skipped = [] ∧
      (∀ pm ∈ [exPm], ∃ c,
        lookupE exWorldSecondCopy.fs pm.source = some (.file c) ∧
        lookupE w₁.fs pm.target = some (.file c))) :=
  ⟨C3_second_run_reports_all_updated.1 exOpts [exPm] exWorldSecond rfl rfl
      (by decide),
   C3_second_run_reports_all_updated.2 { exOpts with linkMode := .copy }
      [exPm] exWorldSecondCopy rfl rfl (by decide) (by decide)⟩

/-- Counterexample to C3 as stated: running the linking sync of `exPm`
twice in a row with identical inputs, the second run changes no file or
directory yet reports one updated mapping -- not the zero the claim
requires. -/
theorem C3_counterexample_second_run_still_updates :
    ∃ (res₁ : SyncResult) (w₁ : World) (res₂ : SyncResult) (w₂ : World),
      syncConfigs exOpts [exPm] exWorld = .ok res₁ w₁ ∧
      syncConfigs exOpts [exPm] w₁ = .ok res₂ w₂ ∧
      res₂.updated.length = 1 ∧
      w₂.fs = w₁.fs := by
  exact ⟨_, _, _, _, rfl, rfl, rfl, rfl⟩

end AgentConfig
